import Mathlib

/-!
Verification of the agentic-tui core: a shallow embedding of the workspace
context assembler, response materializer, planner, tolerant JSON extractor,
change tracker, directory lock and planner progress queue, with theorems
settling the specification claims about them.

Conventions of the embedding:
* Go byte slices are modelled as `GoBytes := Option String` — `none` is the
  nil slice, `some s` a non-nil slice holding `s` (an empty non-nil slice is
  `some ""`).  `goAppendCopy` models `append([]byte(nil), b...)`, which
  returns the nil slice whenever `b` is nil or empty.
* The host is Linux: `filepath.ToSlash`/`FromSlash` are the identity and the
  path separator is `/`.
* Filesystems are total maps `String → Option String` from absolute path to
  content (`none` = the file does not exist / is unreadable).
* Go regular expressions used by the source are implemented as explicit
  scanning functions with the same leftmost-match semantics, specialised to
  the concrete patterns of the source.
-/

namespace AgenticTui

/-! ## Go string primitives (`strings`, `unicode` package subset) -/

/-- `unicode.IsSpace` restricted to the ASCII space characters that the
claims exercise (space, tab, newline, vertical tab, form feed, carriage
return). -/
def goIsSpace (c : Char) : Bool :=
  c = ' ' || c = '\t' || c = '\n' || c = Char.ofNat 11 || c = Char.ofNat 12 || c = '\x0d'

/-- `\s` of Go's regexp syntax: exactly `[\t\n\f\r ]`. -/
def reIsSpace (c : Char) : Bool :=
  c = '\t' || c = '\n' || c = Char.ofNat 12 || c = '\x0d' || c = ' '

/-- Does `pre` occur at the head of `l`? (`strings.HasPrefix` on char lists.) -/
def listStartsWith : List Char → List Char → Bool
  | _, [] => true
  | [], _ :: _ => false
  | c :: cs, p :: ps => c = p && listStartsWith cs ps

/-- Index of the first occurrence of `pat` in `l`, if any (`strings.Index`). -/
def listFindSub : List Char → List Char → Option Nat
  | [], pat => if pat = [] then some 0 else none
  | l@(_ :: cs), pat =>
    if listStartsWith l pat then some 0
    else (listFindSub cs pat).map (· + 1)

/-- `strings.Contains` on char lists. -/
def listContainsSub (l pat : List Char) : Bool :=
  (listFindSub l pat).isSome

/-- `strings.Contains`. -/
def strContains (s sub : String) : Bool :=
  listContainsSub s.data sub.data

/-- `strings.HasPrefix`. -/
def strHasPre (s p : String) : Bool :=
  listStartsWith s.data p.data

/-- `strings.HasSuffix`. -/
def strHasSuf (s p : String) : Bool :=
  listStartsWith s.data.reverse p.data.reverse

/-- `strings.TrimSpace` (leading and trailing white space removed). -/
def goTrimSpace (s : String) : String :=
  ⟨((s.data.dropWhile goIsSpace).reverse.dropWhile goIsSpace).reverse⟩

/-- `strings.TrimLeft(s, " \t")`. -/
def goTrimLeftSpTab (s : String) : String :=
  ⟨s.data.dropWhile (fun c => c = ' ' || c = '\t')⟩

/-- `strings.TrimPrefix`. -/
def goTrimPre (s p : String) : String :=
  if strHasPre s p then ⟨s.data.drop p.data.length⟩ else s

/-- `strings.TrimSuffix`. -/
def goTrimSuf (s p : String) : String :=
  if strHasSuf s p then ⟨s.data.take (s.data.length - p.data.length)⟩ else s

/-- `strings.Split(s, "\n")`. -/
def goSplitLines (s : String) : List String :=
  (s.data.splitOn '\n').map (fun l => ⟨l⟩)

/-- `strings.SplitN(s, ":", 2)`: the part before the first colon and the
rest.  Callers use it only when a colon is present. -/
def goSplitN2Colon (s : String) : String × String :=
  match listFindSub s.data [':'] with
  | none => (s, "")
  | some i => (⟨s.data.take i⟩, ⟨s.data.drop (i + 1)⟩)

/-- `strings.TrimLeft(s, cutset)` for an explicit cutset list. -/
def goTrimLeftCutset (s : String) (cutset : List Char) : String :=
  ⟨s.data.dropWhile (fun c => cutset.contains c)⟩

/-- `strings.Trim` over a backtick cutset: backticks removed from both ends. -/
def goTrimBackticks (s : String) : String :=
  ⟨((s.data.dropWhile (· = '\x60')).reverse.dropWhile (· = '\x60')).reverse⟩

/-- `strings.ReplaceAll` for single characters. -/
def goReplaceAllChar (s : String) (a b : Char) : String :=
  ⟨s.data.map (fun c => if c = a then b else c)⟩

/-- `strings.ToLower` restricted to ASCII (the language tags and keys the
claims exercise are ASCII). -/
def goToLower (s : String) : String :=
  ⟨s.data.map Char.toLower⟩

/-- `path/filepath.Base` on Linux: last path element, `"."` for the empty
path, `"/"` when the path is only separators. -/
def filepathBase (s : String) : String :=
  if s = "" then "."
  else
    let noTrail := (s.data.reverse.dropWhile (· = '/')).reverse
    if noTrail = [] then "/"
    else ⟨(noTrail.reverse.takeWhile (· ≠ '/')).reverse⟩

/-- `path/filepath.Join(root, rel)` for a clean relative `rel` (the only
shape the claims exercise); empty components are dropped as Go does. -/
def filepathJoin (root rel : String) : String :=
  if rel = "" then root
  else if root = "" then rel
  else root ++ "/" ++ rel

/-! ## C7 — the change tracker (`src/tracker.go`) -/

/-- A Go byte slice: `none` is the nil slice, `some s` a non-nil slice. -/
abbrev GoBytes := Option String

/-- `append([]byte(nil), b...)`: Go's idiomatic copy, which yields the nil
slice whenever `b` is nil or empty (appending zero bytes to nil is nil). -/
def goAppendCopy : GoBytes → GoBytes
  | none => none
  | some s => if s = "" then none else some s

/-- The `prev` map of `ChangeTracker`: outer `none` = key absent, outer
`some v` = key present holding the slice `v` (which may itself be nil). -/
abbrev Tracker := String → Option GoBytes

def Tracker.empty : Tracker := fun _ => none

def trackerSet (t : Tracker) (k : String) (v : Option GoBytes) : Tracker :=
  fun k' => if k' = k then v else t k'

/-- A filesystem: absolute path → content (`none` = missing/unreadable). -/
abbrev Fs := String → Option String

def Fs.empty : Fs := fun _ => none

def fsSet (d : Fs) (k : String) (v : Option String) : Fs :=
  fun k' => if k' = k then v else d k'

/-- `filepath.ToSlash` — the identity on Linux, kept as a named function so
the call sites mirror the source. -/
def filepathToSlash (s : String) : String := s

/-- `ChangeTracker.Snapshot`: return the previous content of `rel` from the
map (as `append([]byte(nil), b...)` of the stored slice), else read
`root/rel` from disk, caching a copy (`nil` when the read fails).  Returns
the value handed to the caller and the updated tracker. -/
def ChangeTracker.Snapshot (t : Tracker) (d : Fs) (root rel : String) :
    GoBytes × Tracker :=
  let rel := filepathToSlash rel
  match t rel with
  | some b => (goAppendCopy b, t)
  | none =>
    match d (filepathJoin root rel) with
    | some data => (some data, trackerSet t rel (some (goAppendCopy (some data))))
    | none => (none, trackerSet t rel (some none))

/-- `ChangeTracker.Record`: `nil` deletes the key (no slash normalisation on
this path in the source), otherwise stores `append([]byte(nil), data...)`
under the slash-normalised key. -/
def ChangeTracker.Record (t : Tracker) (rel : String) (data : GoBytes) : Tracker :=
  match data with
  | none => trackerSet t rel none
  | some d => trackerSet t (filepathToSlash rel) (some (goAppendCopy (some d)))

/-! ## C1 — workspace context assembler (`src/context.go`, `buildCodebaseContext`) -/

/-- A file found by the walk: relative path and content bytes (the walk and
the extension filter are abstracted into the entry list the caller supplies;
`Size` of the source's `fileEntry` is the content length). -/
structure FileEntryW where
  rel : String
  content : List Nat
  deriving Repr, DecidableEq

/-- `sort.Slice(entries, func(i, j) { return entries[i].Rel < entries[j].Rel })`
as an insertion sort on the relative path. -/
def insertEntry (e : FileEntryW) : List FileEntryW → List FileEntryW
  | [] => [e]
  | x :: xs => if e.rel < x.rel then e :: x :: xs else x :: insertEntry e xs

def sortEntries : List FileEntryW → List FileEntryW
  | [] => []
  | e :: es => insertEntry e (sortEntries es)

/-- The charge one admitted file adds to the running total:
`capAdd := min(size, perFileLimit)` as the source computes it. -/
def capCharge (size : Nat) (perFileLimit : Int) : Int :=
  if (size : Int) > perFileLimit then perFileLimit else (size : Int)

/-- The cap loop of `buildCodebaseContext` (and `collectAttachmentFiles`):
walk the sorted entries, stopping as soon as the file count reaches
`maxFiles` or the running total has reached `maxTotalBytes` *before* the
next file is charged; each admitted file adds `capCharge` to the total. -/
def selectIncluded (maxFiles maxTotalBytes perFileLimit : Int) :
    List FileEntryW → Nat → Int → List FileEntryW × Int
  | [], _, total => ([], total)
  | e :: rest, count, total =>
    if (count : Int) ≥ maxFiles then ([], total)
    else if total ≥ maxTotalBytes then ([], total)
    else
      let out := selectIncluded maxFiles maxTotalBytes perFileLimit rest
        (count + 1) (total + capCharge e.content.length perFileLimit)
      (e :: out.1, out.2)

/-- The per-file body placed in the snapshot's fenced section:
`content[:perFileLimit]` when the file is longer than the limit. -/
def renderedBody (content : List Nat) (perFileLimit : Int) : List Nat :=
  if (content.length : Int) > perFileLimit then content.take perFileLimit.toNat
  else content

/-- The observable output of `buildCodebaseContext`: the included files with
their rendered (truncated) bodies, the reported file count, and the reported
charged byte total.  The markdown header/tree text carries no further data
of the claims. -/
def buildCodebaseContext (entries : List FileEntryW)
    (maxFiles maxTotalBytes perFileLimit : Int) :
    List (String × List Nat) × Nat × Int :=
  let sorted := sortEntries entries
  let sel := selectIncluded maxFiles maxTotalBytes perFileLimit sorted 0 0
  (sel.1.map (fun e => (e.rel, renderedBody e.content perFileLimit)),
   sel.1.length, sel.2)

/-! ## JSON validity (`encoding/json.Valid`)

Go's `json.Valid` runs a pushdown scanner over the bytes.  The same design
is used here: a family of mutually recursive state functions over the
character list, with a stack of open-container frames.  Termination is by
the measure `2 * length + rank`: every transition either consumes a
character or moves from a rank-1 state to a rank-0 state on the same
input. -/

set_option maxHeartbeats 1600000

/-- An open container on the scanner stack. -/
inductive VFrame where
  | arr : VFrame
  | obj : VFrame
  deriving Repr, DecidableEq

/-- ASCII hexadecimal digit (for `\uXXXX` escapes). -/
def isHexDigitB (c : Char) : Bool :=
  ('0' ≤ c && c ≤ '9') || ('a' ≤ c && c ≤ 'f') || ('A' ≤ c && c ≤ 'F')

/-- ASCII decimal digit. -/
def isDigitB (c : Char) : Bool :=
  '0' ≤ c && c ≤ '9'

mutual

/-- Expect the start of a value (leading white space allowed). -/
def vdVal : List Char → List VFrame → Bool
  | [], _ => false
  | c :: cs, fs =>
    if reIsSpace c then vdVal cs fs
    else if c = '"' then vdStr false cs fs
    else if c = '[' then vdArrStart cs fs
    else if c = '\x7b' then vdObjStart cs fs
    else if c = 't' then vdLit ['r', 'u', 'e'] cs fs
    else if c = 'f' then vdLit ['a', 'l', 's', 'e'] cs fs
    else if c = 'n' then vdLit ['u', 'l', 'l'] cs fs
    else if c = '-' then vdNumNeg cs fs
    else if c = '0' then vdNum0 cs fs
    else if isDigitB c then vdNum1 cs fs
    else false
  termination_by s => 2 * s.length

/-- Inside a string literal (`mode = true` when the string is an object
key); raw control characters are rejected as Go does. -/
def vdStr : Bool → List Char → List VFrame → Bool
  | _, [], _ => false
  | mode, c :: cs, fs =>
    if c = '"' then (if mode then vdColon cs fs else vdEnd cs fs)
    else if c = '\\' then vdStrEsc mode cs fs
    else if c.toNat < 32 then false
    else vdStr mode cs fs
  termination_by _ s => 2 * s.length

/-- After a backslash inside a string literal. -/
def vdStrEsc : Bool → List Char → List VFrame → Bool
  | _, [], _ => false
  | mode, c :: cs, fs =>
    if c = '"' || c = '\\' || c = '/' || c = 'b' || c = 'f' || c = 'n' || c = 'r' || c = 't' then
      vdStr mode cs fs
    else if c = 'u' then vdStrU mode 4 cs fs
    else false
  termination_by _ s => 2 * s.length

/-- Consuming the `k` remaining hexadecimal digits of a `\uXXXX` escape. -/
def vdStrU : Bool → Nat → List Char → List VFrame → Bool
  | _, _, [], _ => false
  | mode, k, c :: cs, fs =>
    if isHexDigitB c then (if k ≤ 1 then vdStr mode cs fs else vdStrU mode (k - 1) cs fs)
    else false
  termination_by _ _ s => 2 * s.length

/-- Consuming the remaining characters of `true`/`false`/`null`. -/
def vdLit : List Char → List Char → List VFrame → Bool
  | [], s, fs => vdEnd s fs
  | _ :: _, [], _ => false
  | l :: ls, c :: cs, fs => if c = l then vdLit ls cs fs else false
  termination_by _ s => 2 * s.length + 1

/-- After `-`: the integer part must start with a digit. -/
def vdNumNeg : List Char → List VFrame → Bool
  | [], _ => false
  | c :: cs, fs =>
    if c = '0' then vdNum0 cs fs
    else if isDigitB c then vdNum1 cs fs
    else false
  termination_by s => 2 * s.length

/-- After a leading `0`: only a fraction or exponent may follow. -/
def vdNum0 : List Char → List VFrame → Bool
  | [], fs => vdEnd [] fs
  | c :: cs, fs =>
    if c = '.' then vdNumDot cs fs
    else if c = 'e' || c = 'E' then vdNumE cs fs
    else vdEndChar c cs fs
  termination_by s => 2 * s.length + 1

/-- Inside the integer part (first digit nonzero). -/
def vdNum1 : List Char → List VFrame → Bool
  | [], fs => vdEnd [] fs
  | c :: cs, fs =>
    if isDigitB c then vdNum1 cs fs
    else if c = '.' then vdNumDot cs fs
    else if c = 'e' || c = 'E' then vdNumE cs fs
    else vdEndChar c cs fs
  termination_by s => 2 * s.length + 1

/-- Right after the decimal point: at least one digit required. -/
def vdNumDot : List Char → List VFrame → Bool
  | [], _ => false
  | c :: cs, fs => if isDigitB c then vdNumDot2 cs fs else false
  termination_by s => 2 * s.length

/-- Inside the fraction digits. -/
def vdNumDot2 : List Char → List VFrame → Bool
  | [], fs => vdEnd [] fs
  | c :: cs, fs =>
    if isDigitB c then vdNumDot2 cs fs
    else if c = 'e' || c = 'E' then vdNumE cs fs
    else vdEndChar c cs fs
  termination_by s => 2 * s.length + 1

/-- Right after `e`/`E`: an optional sign, then at least one digit. -/
def vdNumE : List Char → List VFrame → Bool
  | [], _ => false
  | c :: cs, fs =>
    if c = '+' || c = '-' then vdNumESign cs fs
    else if isDigitB c then vdNumE2 cs fs
    else false
  termination_by s => 2 * s.length

/-- After the exponent sign: at least one digit required. -/
def vdNumESign : List Char → List VFrame → Bool
  | [], _ => false
  | c :: cs, fs => if isDigitB c then vdNumE2 cs fs else false
  termination_by s => 2 * s.length

/-- Inside the exponent digits. -/
def vdNumE2 : List Char → List VFrame → Bool
  | [], fs => vdEnd [] fs
  | c :: cs, fs => if isDigitB c then vdNumE2 cs fs else vdEndChar c cs fs
  termination_by s => 2 * s.length + 1

/-- Right after `[`: an empty array may close immediately, otherwise a value
follows with an `arr` frame pushed. -/
def vdArrStart : List Char → List VFrame → Bool
  | [], _ => false
  | c :: cs, fs =>
    if reIsSpace c then vdArrStart cs fs
    else if c = ']' then vdEnd cs fs
    else vdVal (c :: cs) (.arr :: fs)
  termination_by s => 2 * s.length + 1

/-- Right after `{`: an empty object may close immediately, otherwise a key
string follows with an `obj` frame pushed. -/
def vdObjStart : List Char → List VFrame → Bool
  | [], _ => false
  | c :: cs, fs =>
    if reIsSpace c then vdObjStart cs fs
    else if c = '\x7d' then vdEnd cs fs
    else if c = '"' then vdStr true cs (.obj :: fs)
    else false
  termination_by s => 2 * s.length

/-- After an object key: expect `:` then the member value. -/
def vdColon : List Char → List VFrame → Bool
  | [], _ => false
  | c :: cs, fs =>
    if reIsSpace c then vdColon cs fs
    else if c = ':' then vdVal cs fs
    else false
  termination_by s => 2 * s.length

/-- After `,` inside an object: the next key string is required. -/
def vdObjKey : List Char → List VFrame → Bool
  | [], _ => false
  | c :: cs, fs =>
    if reIsSpace c then vdObjKey cs fs
    else if c = '"' then vdStr true cs fs
    else false
  termination_by s => 2 * s.length

/-- A value just completed: at end of input the stack must be empty,
otherwise the next character decides. -/
def vdEnd : List Char → List VFrame → Bool
  | [], fs => fs = []
  | c :: cs, fs => vdEndChar c cs fs
  termination_by s => 2 * s.length

/-- Dispatch on the character following a completed value: white space,
a separator or a closer of the innermost container. -/
def vdEndChar : Char → List Char → List VFrame → Bool
  | c, cs, fs =>
    if reIsSpace c then vdEnd cs fs
    else
      match fs with
      | [] => false
      | .arr :: rest =>
        if c = ',' then vdVal cs fs
        else if c = ']' then vdEnd cs rest
        else false
      | .obj :: rest =>
        if c = ',' then vdObjKey cs fs
        else if c = '\x7d' then vdEnd cs rest
        else false
  termination_by _ s => 2 * s.length + 1

end

/-- `encoding/json.Valid`: the input is one JSON value with optional
surrounding white space. -/
def jsonValid (s : String) : Bool :=
  vdVal s.data []

/-! ## `encoding/json.Marshal` of a string slice -/

/-- Lower-case hexadecimal digit for `n < 16`. -/
def hexDigitChar (n : Nat) : Char :=
  match n with
  | 0 => '0' | 1 => '1' | 2 => '2' | 3 => '3' | 4 => '4'
  | 5 => '5' | 6 => '6' | 7 => '7' | 8 => '8' | 9 => '9'
  | 10 => 'a' | 11 => 'b' | 12 => 'c' | 13 => 'd' | 14 => 'e' | 15 => 'f'
  | _ => '0'

/-- How Go's default (HTML-escaping) encoder emits one character of a string
value: quote/backslash and `\n`, `\r`, `\t` get two-character escapes, other
control characters and `<`, `>`, `&` get `\u00XX`, U+2028/U+2029 get
`\u202X`, everything else is emitted verbatim. -/
def goEscapeChar (c : Char) : List Char :=
  if c = '"' then ['\\', '"']
  else if c = '\\' then ['\\', '\\']
  else if c = '\n' then ['\\', 'n']
  else if c = '\x0d' then ['\\', 'r']
  else if c = '\t' then ['\\', 't']
  else if c.toNat < 32 then
    ['\\', 'u', '0', '0', hexDigitChar (c.toNat / 16), hexDigitChar (c.toNat % 16)]
  else if c = '<' || c = '>' || c = '&' then
    ['\\', 'u', '0', '0', hexDigitChar (c.toNat / 16), hexDigitChar (c.toNat % 16)]
  else if c.toNat = 8232 || c.toNat = 8233 then
    ['\\', 'u', '2', '0', '2', hexDigitChar (c.toNat % 16)]
  else [c]

/-- `json.Marshal` of one string: quoted, characters escaped as above. -/
def marshalStringChars (s : String) : List Char :=
  '"' :: (s.data.map goEscapeChar).flatten ++ ['"']

/-- The comma-separated element list of `json.Marshal` of a string slice. -/
def marshalItems : List String → List Char
  | [] => []
  | [x] => marshalStringChars x
  | x :: y :: t => marshalStringChars x ++ ',' :: marshalItems (y :: t)

/-- `json.Marshal` of a non-nil string slice: `[` elements `]`, no spaces. -/
def marshalStringArray (items : List String) : String :=
  ⟨'[' :: (marshalItems items ++ [']'])⟩

/-! ## `encoding/json.Unmarshal` into `[]string` and `[]PlanStep`

A small fuel-based recursive-descent parser producing values; fuel bounds
the container nesting depth, `input length + 1` always suffices.  (Surrogate
pairs in `\uXXXX` escapes are decoded one escape at a time; no claim input
uses them.) -/

inductive JVal where
  | jnull : JVal
  | jbool : Bool → JVal
  | jnum : JVal
  | jstr : String → JVal
  | jarr : List JVal → JVal
  | jobj : List (String × JVal) → JVal
  deriving Repr

/-- Numeric value of a hexadecimal digit. -/
def hexVal (c : Char) : Nat :=
  if '0' ≤ c && c ≤ '9' then c.toNat - 48
  else if 'a' ≤ c && c ≤ 'f' then c.toNat - 87
  else if 'A' ≤ c && c ≤ 'F' then c.toNat - 55
  else 0

/-- Decode a string literal body (after the opening quote): returns the
decoded characters and the input remaining after the closing quote. -/
def pvString : List Char → Option (List Char × List Char)
  | [] => none
  | '"' :: r => some ([], r)
  | '\\' :: 'u' :: a :: b :: c :: d :: r =>
    if isHexDigitB a && isHexDigitB b && isHexDigitB c && isHexDigitB d then
      (pvString r).map (fun p =>
        (Char.ofNat (((hexVal a * 16 + hexVal b) * 16 + hexVal c) * 16 + hexVal d) :: p.1, p.2))
    else none
  | '\\' :: e :: r =>
    let dec : Option Char :=
      if e = '"' then some '"'
      else if e = '\\' then some '\\'
      else if e = '/' then some '/'
      else if e = 'b' then some '\x08'
      else if e = 'f' then some (Char.ofNat 12)
      else if e = 'n' then some '\n'
      else if e = 'r' then some '\x0d'
      else if e = 't' then some '\t'
      else none
    match dec with
    | none => none
    | some ch => (pvString r).map (fun p => (ch :: p.1, p.2))
  | c :: r =>
    if c.toNat < 32 then none
    else (pvString r).map (fun p => (c :: p.1, p.2))
  termination_by s => s.length
  decreasing_by all_goals simp_wf <;> omega

/-- Skip the fraction/exponent tail of a number (integer part consumed). -/
def pvNumTail (s : List Char) : Option (List Char) :=
  let afterFrac :=
    match s with
    | '.' :: r =>
      if (r.takeWhile isDigitB).length = 0 then none
      else some (r.dropWhile isDigitB)
    | _ => some s
  match afterFrac with
  | none => none
  | some t =>
    match t with
    | 'e' :: r | 'E' :: r =>
      let r2 := if r.head? = some '+' || r.head? = some '-' then r.tail else r
      if (r2.takeWhile isDigitB).length = 0 then none
      else some (r2.dropWhile isDigitB)
    | _ => some t

/-- Scan a number per the JSON grammar, returning the remainder. -/
def pvNumber (s : List Char) : Option (List Char) :=
  let s1 := if s.head? = some '-' then s.tail else s
  match s1 with
  | '0' :: r => pvNumTail r
  | c :: r => if isDigitB c then pvNumTail (r.dropWhile isDigitB) else none
  | [] => none

mutual

/-- Parse one value (leading white space allowed). -/
def pvValue : Nat → List Char → Option (JVal × List Char)
  | 0, _ => none
  | fuel + 1, s =>
    match s.dropWhile reIsSpace with
    | [] => none
    | '"' :: r => (pvString r).map (fun p => (.jstr ⟨p.1⟩, p.2))
    | '[' :: r =>
      (match (r.dropWhile reIsSpace) with
       | ']' :: r2 => some (.jarr [], r2)
       | r2 => pvElems fuel r2 [])
    | '\x7b' :: r =>
      (match (r.dropWhile reIsSpace) with
       | '\x7d' :: r2 => some (.jobj [], r2)
       | r2 => pvFields fuel r2 [])
    | 't' :: 'r' :: 'u' :: 'e' :: r => some (.jbool true, r)
    | 'f' :: 'a' :: 'l' :: 's' :: 'e' :: r => some (.jbool false, r)
    | 'n' :: 'u' :: 'l' :: 'l' :: r => some (.jnull, r)
    | s2 => (pvNumber s2).map (fun r => (.jnum, r))

/-- Parse the elements of a non-empty array (accumulator carried). -/
def pvElems : Nat → List Char → List JVal → Option (JVal × List Char)
  | 0, _, _ => none
  | fuel + 1, s, acc =>
    match pvValue fuel s with
    | none => none
    | some (v, r) =>
      match r.dropWhile reIsSpace with
      | ',' :: r2 => pvElems fuel r2 (acc ++ [v])
      | ']' :: r2 => some (.jarr (acc ++ [v]), r2)
      | _ => none

/-- Parse the members of a non-empty object (accumulator carried). -/
def pvFields : Nat → List Char → List (String × JVal) →
    Option (JVal × List Char)
  | 0, _, _ => none
  | fuel + 1, s, acc =>
    match s.dropWhile reIsSpace with
    | '"' :: r =>
      (match pvString r with
       | none => none
       | some (key, r2) =>
         match r2.dropWhile reIsSpace with
         | ':' :: r3 =>
           (match pvValue fuel r3 with
            | none => none
            | some (v, r4) =>
              match r4.dropWhile reIsSpace with
              | ',' :: r5 => pvFields fuel r5 (acc ++ [(⟨key⟩, v)])
              | '\x7d' :: r5 => some (.jobj (acc ++ [(⟨key⟩, v)]), r5)
              | _ => none)
         | _ => none)
    | _ => none

end

/-- Parse a whole input as one JSON value (trailing white space only). -/
def jsonParse (s : String) : Option JVal :=
  match pvValue (s.data.length + 1) s.data with
  | none => none
  | some (v, rest) => if rest.dropWhile reIsSpace = [] then some v else none

/-- `json.Unmarshal(data, &subs)` for `subs : []string`: a JSON array whose
elements are all strings (`null` leaves the slice nil, hence empty). -/
def jsonUnmarshalStringArray (s : String) : Option (List String) :=
  match jsonParse s with
  | some .jnull => some []
  | some (.jarr vs) =>
    vs.foldr (fun v acc =>
      match v, acc with
      | .jstr str, some l => some (str :: l)
      | _, _ => none) (some [])
  | _ => none

/-! ## C8 — tolerant JSON extraction (`extractJSON`, `extractJSONStrict`)

The concrete regular expressions of the source are realised as scanning
functions with Go's leftmost-match semantics. -/

/-- `strings.IndexAny(s, chars)`. -/
def strIndexAny (s : String) (chars : List Char) : Option Nat :=
  s.data.findIdx? (fun c => chars.contains c)

/-- `strings.LastIndexAny(s, chars)`. -/
def strLastIndexAny (s : String) (chars : List Char) : Option Nat :=
  match s.data.reverse.findIdx? (fun c => chars.contains c) with
  | none => none
  | some i => some (s.data.length - 1 - i)

/-- One replacement pass of Go's
`regexp.MustCompile(",\\s*]").ReplaceAllString(s, "]")` (and the `}`
analogue): every `,` followed by white space and the closer collapses to the
closer; scanning resumes after the replacement. -/
def trailingCommaFix (closer : Char) : List Char → List Char
  | [] => []
  | c :: cs =>
    if c = ',' then
      let r := cs.dropWhile reIsSpace
      if r.head? = some closer then closer :: trailingCommaFix closer r.tail
      else c :: trailingCommaFix closer cs
    else c :: trailingCommaFix closer cs
  termination_by s => s.length
  decreasing_by
    all_goals simp_wf
    all_goals try omega
    have h1 : (cs.dropWhile reIsSpace).length ≤ cs.length :=
      (List.dropWhile_sublist reIsSpace).length_le
    have h2 : (cs.dropWhile reIsSpace).tail.length = (cs.dropWhile reIsSpace).length - 1 :=
      List.length_tail _
    omega

/-- The body scan of `` backtickStringRe = `([^`\\]*(?:\\.[^`\\]*)*)` ``:
from just after an opening backtick, consume characters (backslash escapes
any character except newline, since `.` does not match `\n` without the `s`
flag) up to a closing backtick.  Returns the raw content and the number of
characters consumed, closing backtick included. -/
def btScan : List Char → Option (List Char × Nat)
  | [] => none
  | c :: r =>
    if c = '\x60' then some ([], 1)
    else if c = '\\' then
      match r with
      | [] => none
      | c2 :: r2 =>
        if c2 = '\n' then none
        else (btScan r2).map (fun p => ('\\' :: c2 :: p.1, p.2 + 2))
    else (btScan r).map (fun p => (c :: p.1, p.2 + 1))
  termination_by s => s.length
  decreasing_by all_goals simp_wf <;> omega

/-- `backtickStringRe.ReplaceAllString(s, "\"$1\"")`: each matched backtick
string is rewritten with double quotes around the raw content; an opening
backtick with no well-formed closing match is kept verbatim. -/
def backtickFix : List Char → List Char
  | [] => []
  | c :: cs =>
    if c = '\x60' then
      match btScan cs with
      | some (content, n) => '"' :: content ++ '"' :: backtickFix (cs.drop n)
      | none => c :: backtickFix cs
    else c :: backtickFix cs
  termination_by s => s.length
  decreasing_by
    all_goals simp_wf
    all_goals try simp [List.length_drop]
    all_goals omega

/-- `regexp` `(\[[\s\S]*?\]|\{[\s\S]*?\})`.FindString: the leftmost bracket
that has a matching closer later in the input, matched lazily. -/
def reAnyFind : List Char → Option (List Char)
  | [] => none
  | c :: cs =>
    if c = '[' then
      match listFindSub cs [']'] with
      | some k => some ('[' :: cs.take (k + 1))
      | none => reAnyFind cs
    else if c = '\x7b' then
      match listFindSub cs ['\x7d'] with
      | some k => some (c :: cs.take (k + 1))
      | none => reAnyFind cs
    else reAnyFind cs

/-- Caseless match of the literal `json` at the head of the input. -/
def matchJsonTag (s : List Char) : Bool :=
  (s.take 4).map Char.toLower == ['j', 's', 'o', 'n']

/-- `` reFence = (?is)```(?:json|JSON)?\s*([\s\S]*?)``` `` of
`extractJSONStrict`: from each `` ``` `` in turn, consume an optional
caseless `json` tag and the white-space run, then capture lazily up to the
next `` ``` ``.  Fuel bounds the retry positions; `length + 1` suffices. -/
def reFenceFindAux : Nat → List Char → Option (List Char)
  | 0, _ => none
  | fuel + 1, s =>
    match listFindSub s ['\x60', '\x60', '\x60'] with
    | none => none
    | some i =>
      let after := s.drop (i + 3)
      let afterTag := if matchJsonTag after then after.drop 4 else after
      let body := afterTag.dropWhile reIsSpace
      match listFindSub body ['\x60', '\x60', '\x60'] with
      | some k => some (body.take k)
      | none => reFenceFindAux fuel (s.drop (i + 1))

def reFenceFind (s : String) : Option String :=
  (reFenceFindAux (s.data.length + 1) s.data).map (fun l => ⟨l⟩)

/-- `` jsonRe = (?is)```(?:json[c5]?|json5)?\s*([{\[].*?[}\]])\s*``` `` of
`extractJSON`: from each `` ``` `` in turn, consume an optional caseless
`json`/`jsonc`/`json5` tag and the white-space run; the capture must open
with `{`/`[` and is matched lazily up to the first `}`/`]` that is followed
by white space and the closing fence. -/
def jsonReBody : Nat → List Char → Option (List Char)
  | 0, _ => none
  | fuel + 1, s =>
    match s with
    | [] => none
    | c :: cs =>
      if c = '\x7d' || c = ']' then
        if listStartsWith (cs.dropWhile reIsSpace) ['\x60', '\x60', '\x60'] then some [c]
        else (jsonReBody fuel cs).map (fun t => c :: t)
      else (jsonReBody fuel cs).map (fun t => c :: t)

def jsonReFindAux : Nat → List Char → Option (List Char)
  | 0, _ => none
  | fuel + 1, s =>
    match listFindSub s ['\x60', '\x60', '\x60'] with
    | none => none
    | some i =>
      let after := s.drop (i + 3)
      let afterTag :=
        if matchJsonTag after then
          let a := after.drop 4
          match a with
          | c :: _ => if c.toLower = 'c' || c = '5' then a.drop 1 else a
          | [] => a
        else after
      let body := afterTag.dropWhile reIsSpace
      let attempt : Option (List Char) :=
        match body with
        | c :: cs =>
          if c = '\x7b' || c = '[' then (jsonReBody (cs.length + 1) cs).map (fun t => c :: t)
          else none
        | [] => none
      match attempt with
      | some cap => some cap
      | none => jsonReFindAux fuel (s.drop (i + 1))

def jsonReFind (s : String) : Option String :=
  (jsonReFindAux (s.data.length + 1) s.data).map (fun l => ⟨l⟩)

/-- The final gate of `extractJSON`: the sanitised bytes must still open
with `{` or `[`. -/
def bracketHeadCheck (jsonStr : String) : Except String String :=
  match jsonStr.data.head? with
  | some c =>
    if c ≠ '\x7b' && c ≠ '[' then .error "response did not contain JSON object or array"
    else .ok jsonStr
  | none => .error "response did not contain JSON object or array"

/-- The sanitising tail shared by `extractJSON` after a candidate is chosen:
trim, collapse trailing commas, rewrite backtick strings, then insist the
result still opens with `{` or `[`. -/
def extractJSON (raw : String) : Except String String :=
  match
    (match jsonReFind raw with
     | some cap => Except.ok cap
     | none =>
       match strIndexAny raw ['[', '\x7b'] with
       | none => Except.error "no JSON object or array found"
       | some start =>
         match strLastIndexAny raw ['\x7d', ']'] with
         | none => Except.error "no JSON object or array found"
         | some e =>
           if e < start then Except.error "no JSON object or array found"
           else Except.ok ⟨(raw.data.drop start).take (e + 1 - start)⟩) with
  | .error msg => .error msg
  | .ok candidate =>
    let jsonStr := goTrimSpace candidate
    if jsonStr = "" then .error "empty JSON payload"
    else
      let jsonStr : String := ⟨trailingCommaFix ']' jsonStr.data⟩
      let jsonStr : String := ⟨trailingCommaFix '\x7d' jsonStr.data⟩
      let jsonStr : String :=
        if strContains jsonStr "`" then ⟨backtickFix jsonStr.data⟩ else jsonStr
      bracketHeadCheck jsonStr

/-- The bullet/numbered-list fallback of `extractJSONStrict` (step 6): strip
bullet prefixes, drop blank lines, lines mentioning `step` and lines of 120
bytes or more, and keep the rest. -/
def fallbackItems (raw : String) : List String :=
  (goSplitLines raw).filterMap (fun l =>
    let l := goTrimSpace (goTrimLeftCutset l
      ['-', '•', '0', '1', '2', '3', '4', '5', '6', '7', '8', '9', '.', ' '])
    if l = "" then none
    else if strContains (goToLower l) "step" then none
    else if 0 < l.utf8ByteSize && l.utf8ByteSize < 120 then some l
    else none)

/-- Steps 1–3 of `extractJSONStrict`: strip an enclosing fence, trim a
stray brace pair, replace single quotes, collapse trailing commas, trim. -/
def extractJSONStrictCandidate (raw : String) : String :=
  let raw := match reFenceFind raw with
    | some inner => goTrimSpace inner
    | none => raw
  let raw := goTrimPre raw "\x7b"
  let raw := goTrimSuf raw "\x7d"
  let raw := goTrimSpace raw
  let raw := goReplaceAllChar raw '\x27' '"'
  let raw : String := ⟨trailingCommaFix ']' raw.data⟩
  let raw : String := ⟨trailingCommaFix '\x7d' raw.data⟩
  goTrimSpace raw

/-- `extractJSONStrict` (`src/planner.go` variant with the strict pipeline):
sanitise, then accept if valid, else the first bracketed substring if
valid, else marshal the bullet-list fallback. -/
def extractJSONStrict (raw : String) : Except String String :=
  let raw := goTrimSpace raw
  if raw = "" then .error "empty response"
  else
    let raw := extractJSONStrictCandidate raw
    if jsonValid raw then .ok raw
    else
      match reAnyFind raw.data with
      | some m =>
        if jsonValid ⟨m⟩ then .ok ⟨m⟩
        else
          let items := fallbackItems raw
          if items.length > 0 then .ok (marshalStringArray items)
          else .error "malformed JSON in response"
      | none =>
        let items := fallbackItems raw
        if items.length > 0 then .ok (marshalStringArray items)
        else .error "malformed JSON in response"

/-! ## Fence parsing (`fenceRe` of `src/codeblocks.go` / `part_010`)

`` fenceRe = (?s)```([a-zA-Z0-9_+\.-]*)\s*\n(.*?)\n``` ``.  After the tag,
`\s*\n` consumes through a newline of the white-space run (greedy, so the
latest newline for which a closing `` \n``` `` still exists downstream);
the body is matched lazily. -/

/-- The character class of the fence language tag. -/
def isLangChar (c : Char) : Bool :=
  ('a' ≤ c && c ≤ 'z') || ('A' ≤ c && c ≤ 'Z') || isDigitB c ||
  c = '_' || c = '+' || c = '.' || c = '-'

/-- Newline positions of a white-space run, most recent first (the greedy
backtracking order of `\s*\n`). -/
def newlineIdxsDesc (ws : List Char) : List Nat :=
  ((List.range ws.length).filter (fun j => ws.getD j ' ' = '\n')).reverse

/-- Try each candidate newline in backtracking order; succeed on the first
whose remaining text contains a closing `` \n``` ``, returning the newline
index and the body length. -/
def fenceTryBodies (afterLang : List Char) : List Nat → Option (Nat × Nat)
  | [] => none
  | j :: js =>
    match listFindSub (afterLang.drop (j + 1)) ('\n' :: ['\x60', '\x60', '\x60']) with
    | some b => some (j, b)
    | none => fenceTryBodies afterLang js

/-- `fenceRe.FindAllStringSubmatch`: all non-overlapping fences in source
order, as `(tag, body)` pairs.  Fuel bounds restart positions;
`length + 1` always suffices. -/
def extractFencesAux : Nat → List Char → List (String × String)
  | 0, _ => []
  | fuel + 1, s =>
    match listFindSub s ['\x60', '\x60', '\x60'] with
    | none => []
    | some i =>
      let after := (s.drop i).drop 3
      let lang := after.takeWhile isLangChar
      let afterLang := after.dropWhile isLangChar
      let ws := afterLang.takeWhile reIsSpace
      match fenceTryBodies afterLang (newlineIdxsDesc ws) with
      | some (j, b) =>
        let bodyStart := afterLang.drop (j + 1)
        (⟨lang⟩, ⟨bodyStart.take b⟩) :: extractFencesAux fuel (bodyStart.drop (b + 4))
      | none => extractFencesAux fuel (s.drop (i + 1))

def extractFences (s : String) : List (String × String) :=
  extractFencesAux (s.data.length + 1) s.data

/-! ## C6/C4 — `WriteCodeBlocks` (`src/codeblocks.go`, in `model.go`'s file) -/

/-- One parsed code block of `extractCodeBlocks`: tag lower-cased, body
verbatim. -/
structure CodeBlockM where
  lang : String
  body : String
  deriving Repr, DecidableEq

/-- `extractCodeBlocks`: the fences of the response with tags lower-cased. -/
def extractCodeBlocks (s : String) : List CodeBlockM :=
  (extractFences s).map (fun p => ⟨goToLower p.1, p.2⟩)

/-- The leading path-directive regex of `extractPathAndStrip`:
`(?i)^\s*(?:\/\/|#|--|;|@|<!--)\s*path:?\s*([^\s>]+)` applied to the first
line only. -/
def pathDirectiveCapture (line : String) : Option String :=
  let l := line.data.dropWhile reIsSpace
  let afterMark : Option (List Char) :=
    if listStartsWith l ['/', '/'] then some (l.drop 2)
    else if listStartsWith l ['#'] then some (l.drop 1)
    else if listStartsWith l ['-', '-'] then some (l.drop 2)
    else if listStartsWith l [';'] then some (l.drop 1)
    else if listStartsWith l ['@'] then some (l.drop 1)
    else if listStartsWith l ['<', '!', '-', '-'] then some (l.drop 4)
    else none
  match afterMark with
  | none => none
  | some r =>
    let r := r.dropWhile reIsSpace
    if (r.take 4).map Char.toLower = ['p', 'a', 't', 'h'] then
      let r := r.drop 4
      let grab (rr : List Char) : Option (List Char) :=
        let rr2 := rr.dropWhile reIsSpace
        let cap := rr2.takeWhile (fun c => !(reIsSpace c) && c ≠ '>')
        if cap = [] then none else some cap
      let withColon : Option (List Char) :=
        if r.head? = some ':' then grab (r.drop 1) else none
      match withColon with
      | some cap => some ⟨cap⟩
      | none => (grab r).map (fun cap => ⟨cap⟩)
    else none

/-- `extractPathAndStrip`: a directive on the first line yields the
(slash-normalised) path and the body without that line. -/
def extractPathAndStrip (code : String) : Option String × String :=
  match goSplitLines code with
  | [] => (none, code)
  | first :: rest =>
    match pathDirectiveCapture first with
    | some p => (some (filepathToSlash (goTrimSpace p)), String.intercalate "\n" rest)
    | none => (none, code)

/-- `extFromLang` (`src/codegen.go`): language identifier → file extension. -/
def extFromLang (lang : String) : String :=
  let lang := goToLower (goTrimSpace lang)
  if lang = "go" || lang = "golang" then ".go"
  else if lang = "python" || lang = "py" then ".py"
  else if lang = "javascript" || lang = "js" || lang = "node" then ".js"
  else if lang = "typescript" || lang = "ts" then ".ts"
  else if lang = "jsx" then ".jsx"
  else if lang = "tsx" then ".tsx"
  else if lang = "rust" || lang = "rs" then ".rs"
  else if lang = "java" then ".java"
  else if lang = "c" then ".c"
  else if lang = "cpp" || lang = "c++" || lang = "cc" || lang = "cxx" then ".cpp"
  else if lang = "h" || lang = "hpp" || lang = "hh" || lang = "hxx" then ".h"
  else if lang = "csharp" || lang = "c#" || lang = "cs" then ".cs"
  else if lang = "kotlin" || lang = "kt" then ".kt"
  else if lang = "swift" then ".swift"
  else if lang = "ruby" || lang = "rb" then ".rb"
  else if lang = "php" then ".php"
  else if lang = "scala" then ".scala"
  else if lang = "dart" then ".dart"
  else if lang = "lua" then ".lua"
  else if lang = "r" then ".r"
  else if lang = "shell" || lang = "bash" || lang = "sh" || lang = "zsh" then ".sh"
  else if lang = "sql" then ".sql"
  else if lang = "html" || lang = "xml" || lang = "svg" then "." ++ lang
  else if lang = "css" || lang = "scss" || lang = "sass" || lang = "less" then ".css"
  else if lang = "json" then ".json"
  else if lang = "yaml" || lang = "yml" then ".yaml"
  else if lang = "toml" then ".toml"
  else if lang = "md" || lang = "markdown" then ".md"
  else if lang = "dockerfile" then ".dockerfile"
  else if lang = "makefile" then "Makefile"
  else if lang = "" then ".txt"
  else if lang.data.length ≤ 6 &&
      lang.data.all (fun c => ('a' ≤ c && c ≤ 'z') || isDigitB c || c = '.' || c = '+' || c = '-') &&
      lang.data ≠ [] then
    (if strHasPre lang "." then lang else "." ++ lang)
  else ".txt"

/-- A materializer outcome (`FileAction`); the unified-diff text carries no
information used by any claim and is omitted. -/
structure FileAction where
  path : String
  action : String
  message : String
  deriving Repr, DecidableEq

/-- A disk: contents plus the set of paths on which `os.WriteFile` fails. -/
structure Disk where
  files : Fs
  wfail : String → Bool

/-- The relative path `WriteCodeBlocks` resolves for the `i`-th fence: the
explicit directive, else `generated/file_<i+1>.<ext>`. -/
def blockPath (i : Nat) (b : CodeBlockM) : String :=
  match (extractPathAndStrip b.body).1 with
  | some p => p
  | none =>
    "generated/file_" ++ toString (i + 1) ++ "." ++ goTrimPre (extFromLang b.lang) "."

/-- The body of the `WriteCodeBlocks` fence loop for one block: path
resolution, snapshot, conditional write, record. -/
def writeOneBlock (root : String) (i : Nat) (b : CodeBlockM)
    (tr : Tracker) (d : Disk) : FileAction × Tracker × Disk :=
  let path := blockPath i b
  let body := (extractPathAndStrip b.body).2
  let abs := filepathJoin root path
  let snap := ChangeTracker.Snapshot tr d.files root path
  let oldB := snap.1
  let tr := snap.2
  let status :=
    match oldB with
    | none => "created"
    | some old => if old = body then "unchanged" else "updated"
  if status ≠ "unchanged" then
    if d.wfail abs then
      ({ path := path, action := "error", message := "write failed" }, tr, d)
    else
      let d := { d with files := fsSet d.files abs (some body) }
      let tr := ChangeTracker.Record tr path (some body)
      ({ path := path, action := "saved", message := status }, tr, d)
  else
    let tr := ChangeTracker.Record tr path (some body)
    ({ path := path, action := "saved", message := status }, tr, d)

/-- The fence loop of `WriteCodeBlocks` over the parsed blocks. -/
def writeBlocksLoop (root : String) : List CodeBlockM → Nat → Tracker → Disk →
    List FileAction × Tracker × Disk
  | [], _, tr, d => ([], tr, d)
  | b :: bs, i, tr, d =>
    let step := writeOneBlock root i b tr d
    let rest := writeBlocksLoop root bs (i + 1) step.2.1 step.2.2
    (step.1 :: rest.1, rest.2)

/-- `WriteCodeBlocks(root, response)`: parse the fences and process each in
order; a response with no fences yields the single `info` action. -/
def WriteCodeBlocks (root response : String) (tr : Tracker) (d : Disk) :
    List FileAction × Tracker × Disk :=
  match extractCodeBlocks response with
  | [] => ([{ path := "", action := "info", message := "No code blocks detected." }], tr, d)
  | bs => writeBlocksLoop root bs 0 tr d

/-! ## C4 — `parseFences`/`writeCodeFence` (`src/codegen.go`) -/

/-- `parseFences`: the simple `strings.Index`-based scanner of
`codegen.go` — `` ``` ``, a language line, a body, `` ``` ``. -/
def parseFencesAux : Nat → List Char → List (String × String)
  | 0, _ => []
  | fuel + 1, s =>
    match listFindSub s ['\x60', '\x60', '\x60'] with
    | none => []
    | some i =>
      let langLine := s.drop (i + 3)
      match listFindSub langLine ['\n'] with
      | none => []
      | some nl =>
        let lang := goTrimSpace ⟨langLine.take nl⟩
        let rest := langLine.drop (nl + 1)
        match listFindSub rest ['\x60', '\x60', '\x60'] with
        | none => []
        | some e =>
          (lang, (⟨rest.take e⟩ : String)) :: parseFencesAux fuel (rest.drop (e + 3))

def parseFences (s : String) : List (String × String) :=
  parseFencesAux (s.data.length + 1) s.data

/-- Positions where `(?m)^` matches: 0 and each index after a newline. -/
def lineStartSuffixes : List Char → List (List Char)
  | [] => [[]]
  | c :: cs =>
    if c = '\n' then (c :: cs) :: lineStartSuffixes cs
    else
      match lineStartSuffixes cs with
      | [] => [c :: cs]
      | _ :: t => (c :: cs) :: t

/-- Match the tail `\s*$` of `pathRe` at a suffix: consume trailing white
space greedily up to a position followed by `\n` or end of input; returns
the remaining suffix (starting at that `\n`, or empty). -/
def matchWsEol (r : List Char) : Option (List Char) :=
  let run := r.takeWhile reIsSpace
  let rest := r.drop run.length
  if rest = [] then some []
  else
    match newlineIdxsDesc run with
    | j :: _ => some (run.drop j ++ rest)
    | [] => none

/-- One positional attempt of
`pathRe = (?m)^(?:(?://|#|--)\s*path:\s*([^\s]+)|<!--\s*path:\s*([^\s]+)\s*-->)\s*$`:
returns the captured path and the suffix after the match end. -/
def pathReTryAt (l : List Char) : Option (String × List Char) :=
  let alt1 : Option (String × List Char) :=
    let afterMark : Option (List Char) :=
      if listStartsWith l ['/', '/'] then some (l.drop 2)
      else if listStartsWith l ['#'] then some (l.drop 1)
      else if listStartsWith l ['-', '-'] then some (l.drop 2)
      else none
    match afterMark with
    | none => none
    | some r =>
      let r := r.dropWhile reIsSpace
      if listStartsWith r ['p', 'a', 't', 'h', ':'] then
        let r2 := (r.drop 5).dropWhile reIsSpace
        let cap := r2.takeWhile (fun c => !(reIsSpace c))
        if cap = [] then none
        else (matchWsEol (r2.drop cap.length)).map (fun rest => (⟨cap⟩, rest))
      else none
  match alt1 with
  | some res => some res
  | none =>
    if listStartsWith l ['<', '!', '-', '-'] then
      let r := (l.drop 4).dropWhile reIsSpace
      if listStartsWith r ['p', 'a', 't', 'h', ':'] then
        let r2 := (r.drop 5).dropWhile reIsSpace
        let cap := r2.takeWhile (fun c => !(reIsSpace c))
        if cap = [] then none
        else
          let r3 := (r2.drop cap.length).dropWhile reIsSpace
          if listStartsWith r3 ['-', '-', '>'] then
            (matchWsEol (r3.drop 3)).map (fun rest => (⟨cap⟩, rest))
          else none
      else none
    else none

/-- `pathRe.FindStringSubmatchIndex`: the first line-start position with a
match; yields the capture and the suffix after the match. -/
def pathReFind (s : List Char) : Option (String × List Char) :=
  (lineStartSuffixes s).firstM (fun suf =>
    match suf with
    | [] => pathReTryAt []
    | '\n' :: t => pathReTryAt t
    | l => pathReTryAt l)

/-- `extractPathFromCode`: search the whole (left-trimmed) code for a path
comment; on a hit return the path and the code with everything up to and
including that comment line removed (the source keeps only the leading
indentation plus the text after the matched line). -/
def extractPathFromCode (code : String) : String × String :=
  let trimmed := goTrimLeftSpTab code
  match pathReFind trimmed.data with
  | none => ("", code)
  | some (p, afterMatch) =>
    let before : List Char := code.data.take (code.data.length - trimmed.data.length)
    let afterMatch :=
      match afterMatch with
      | '\n' :: t => t
      | t => t
    (p, ⟨before ++ afterMatch⟩)

/-- `writeCodeFence`: trim the fence, extract or synthesise the path, make
the parent directory (may fail), append a trailing newline when the body
lacks one, write (may fail).  Returns the actions and the updated disk. -/
def writeCodeFence (baseDir : String) (index : Nat) (fence : String × String)
    (mkfail : String → Bool) (d : Disk) : List FileAction × Disk :=
  let code := goTrimSpace fence.2
  if code = "" then ([], d)
  else
    let pr := extractPathFromCode code
    let path :=
      if pr.1 = "" then "generated/file_" ++ toString (index + 1) ++ extFromLang fence.1
      else pr.1
    let body := pr.2
    let fullPath := filepathJoin baseDir (filepathToSlash path)
    if mkfail fullPath then
      ([{ path := fullPath, action := "error", message := "Failed to create directory" }], d)
    else
      let bodyBytes :=
        if body ≠ "" && body.data.getLast? ≠ some '\n' then body ++ "\n" else body
      if d.wfail fullPath then
        ([{ path := fullPath, action := "error", message := "Failed to write file" }], d)
      else
        ([{ path := fullPath, action := "saved", message := "" }],
         { d with files := fsSet d.files fullPath (some bodyBytes) })

/-! ## C3 — `saveCodeBlocks` destination logic (`part_010`) -/

/-- First-character class of the package/module identifiers. -/
def isIdentStart (c : Char) : Bool :=
  ('a' ≤ c && c ≤ 'z') || ('A' ≤ c && c ≤ 'Z') || c = '_'

/-- Identifier-tail class `[a-zA-Z0-9_.-]`. -/
def isIdentChar (c : Char) : Bool :=
  isIdentStart c || isDigitB c || c = '.' || c = '-'

/-- Scan for `<kw>\s+([^\s]+)` (pattern 1 of `extractExplicitPath`). -/
def scanKwSpaceCap (kw : List Char) : List Char → Option String
  | [] => none
  | l@(_ :: rest) =>
    (if listStartsWith l kw then
       let r := l.drop kw.length
       match r.head? with
       | some c =>
         if reIsSpace c then
           let cap := (r.dropWhile reIsSpace).takeWhile (fun c => !(reIsSpace c))
           if cap = [] then none else some (⟨cap⟩ : String)
         else none
       | none => none
     else none) <|> scanKwSpaceCap kw rest

/-- Scan for `<marker>\s*<kw>:\s*([^\s]+)` (patterns 2–3 of
`extractExplicitPath`). -/
def scanMarkerKwColonCap (marker kw : List Char) : List Char → Option String
  | [] => none
  | l@(_ :: rest) =>
    (if listStartsWith l marker then
       let r := (l.drop marker.length).dropWhile reIsSpace
       if listStartsWith r (kw ++ [':']) then
         let cap := ((r.drop (kw.length + 1)).dropWhile reIsSpace).takeWhile
           (fun c => !(reIsSpace c))
         if cap = [] then none else some (⟨cap⟩ : String)
       else none
     else none) <|> scanMarkerKwColonCap marker kw rest

/-- `extractExplicitPath` (`part_010`): `@path p`, `// path: p`,
`# path: p`, tried in that order; `""` when none matches. -/
def extractExplicitPath (code : String) : String :=
  match scanKwSpaceCap ['@', 'p', 'a', 't', 'h'] code.data with
  | some p => goTrimSpace p
  | none =>
    match scanMarkerKwColonCap ['/', '/'] ['p', 'a', 't', 'h'] code.data with
    | some p => goTrimSpace p
    | none =>
      match scanMarkerKwColonCap ['#'] ['p', 'a', 't', 'h'] code.data with
      | some p => goTrimSpace p
      | none => ""

/-- Scan for `<kw>\s+([ident])` with identifier capture (`@package X`,
`@module X` of `extractUniversalPackage`). -/
def scanKwSpaceIdent (kw : List Char) : List Char → Option String
  | [] => none
  | l@(_ :: rest) =>
    (if listStartsWith l kw then
       let r := l.drop kw.length
       match r.head? with
       | some c =>
         if reIsSpace c then
           let r2 := r.dropWhile reIsSpace
           match r2.head? with
           | some c0 =>
             if isIdentStart c0 then
               some ((⟨c0 :: (r2.drop 1).takeWhile isIdentChar⟩ : String))
             else none
           | none => none
         else none
       | none => none
     else none) <|> scanKwSpaceIdent kw rest

/-- Scan for `<marker>\s*<kw>:\s*([ident])` (`# package: X`,
`// package: X` of `extractUniversalPackage`). -/
def scanMarkerKwColonIdent (marker kw : List Char) : List Char → Option String
  | [] => none
  | l@(_ :: rest) =>
    (if listStartsWith l marker then
       let r := (l.drop marker.length).dropWhile reIsSpace
       if listStartsWith r (kw ++ [':']) then
         let r2 := (r.drop (kw.length + 1)).dropWhile reIsSpace
         match r2.head? with
         | some c0 =>
           if isIdentStart c0 then
             some ((⟨c0 :: (r2.drop 1).takeWhile isIdentChar⟩ : String))
           else none
         | none => none
       else none
     else none) <|> scanMarkerKwColonIdent marker kw rest

/-- `extractUniversalPackage`: the four universal directive patterns in
order; `""` when none matches. -/
def extractUniversalPackage (code : String) : String :=
  match scanKwSpaceIdent ['@', 'p', 'a', 'c', 'k', 'a', 'g', 'e'] code.data with
  | some p => p
  | none =>
    match scanKwSpaceIdent ['@', 'm', 'o', 'd', 'u', 'l', 'e'] code.data with
    | some p => p
    | none =>
      match scanMarkerKwColonIdent ['#'] ['p', 'a', 'c', 'k', 'a', 'g', 'e'] code.data with
      | some p => p
      | none =>
        match scanMarkerKwColonIdent ['/', '/'] ['p', 'a', 'c', 'k', 'a', 'g', 'e'] code.data with
        | some p => p
        | none => ""

/-- One line-start attempt of `extractGoPackage`'s pattern
`^package\s+([a-zA-Z_][a-zA-Z0-9_]*)`. -/
def goPackageAttempt (l : List Char) : Option String :=
  if listStartsWith l ['p', 'a', 'c', 'k', 'a', 'g', 'e'] then
    let r := l.drop 7
    match r.head? with
    | some c =>
      if reIsSpace c then
        let r2 := r.dropWhile reIsSpace
        match r2.head? with
        | some c0 =>
          if isIdentStart c0 then
            some (⟨c0 :: (r2.drop 1).takeWhile (fun ch => isIdentStart ch || isDigitB ch)⟩ : String)
          else none
        | none => none
      else none
    | none => none
  else none

/-- Try the Go `package` pattern at each line start, in order. -/
def goPackageScan : List (List Char) → String
  | [] => ""
  | suf :: sufs =>
    let l := match suf with
      | '\n' :: t => t
      | t => t
    match goPackageAttempt l with
    | some p => p
    | none => goPackageScan sufs

/-- `extractGoPackage`: `(?m)^package\s+([a-zA-Z_][a-zA-Z0-9_]*)` — a line
starting with `package`, then white space, then a Go identifier. -/
def extractGoPackage (code : String) : String :=
  goPackageScan (lineStartSuffixes code.data)

/-- `filepath.Dir` on Linux for the clean paths the claims exercise. -/
def filepathDir (s : String) : String :=
  match strLastIndexAny s ['/'] with
  | none => "."
  | some i => if i = 0 then "/" else ⟨s.data.take i⟩

/-- The `lang = "go"` arm of `detectPackageDirectory` (`part_010`): the
universal directive first, else the Go `package` token for any package
other than `main`, else the workspace root.  (The other language arms are
not exercised by any claim.) -/
def detectPackageDirectoryGo (working code : String) : String × String :=
  let pkg := extractUniversalPackage code
  if pkg ≠ "" then (filepathJoin working pkg, pkg)
  else
    let gp := extractGoPackage code
    if gp ≠ "" && gp ≠ "main" then (filepathJoin working gp, gp)
    else (working, "")

/-- The destination directory `saveCodeBlocks` (`part_010`, lines 54–74)
picks for a Go-tagged fence whose (trimmed) body is `code`: explicit
`@path`-style directive, else the Go entrypoint safeguard — which tests for
the literals `package src` and `func main(` — else
`detectPackageDirectory`. -/
def saveCodeBlocksGoDest (working code : String) : String :=
  let code := goTrimSpace code
  let explicit := extractExplicitPath code
  if explicit ≠ "" then filepathDir (filepathJoin working explicit)
  else if strContains code "package src" || strContains code "func main(" then working
  else (detectPackageDirectoryGo working code).1

/-! ## C2/C5 — the planner (`src/planner.go`, `part_005`) -/

/-- `PlanStep`: name, goal, previous runtime error. -/
structure PlanStep where
  name : String
  goal : String
  prevErr : String
  deriving Repr, DecidableEq

/-- `heuristicSplit`: non-empty trimmed lines; a colon separates an
optional name from the goal. -/
def heuristicSplit (s : String) : List PlanStep :=
  (goSplitLines s).filterMap (fun line =>
    let line := goTrimSpace line
    if line = "" then none
    else if strContains line ":" then
      let p := goSplitN2Colon line
      some ⟨goTrimSpace p.1, goTrimSpace p.2, ""⟩
    else some ⟨"", line, ""⟩)

/-- Go's `json.Unmarshal` object-field lookup (the claims' inputs use exact
lower-case keys, so the case-insensitive fallback is not modelled); the last
duplicate wins. -/
def lookupField (fields : List (String × JVal)) (key : String) : Option JVal :=
  ((fields.filter (fun f => f.1 = key)).getLast?).map Prod.snd

/-- Decode one string-typed field: missing or `null` leaves the zero value,
any other non-string value is a type error. -/
def decodeStrField (fields : List (String × JVal)) (key : String) : Option String :=
  match lookupField fields key with
  | none => some ""
  | some (.jstr s) => some s
  | some .jnull => some ""
  | some _ => none

/-- `json.Unmarshal(data, &steps)` for `steps : []PlanStep`. -/
def decodePlanSteps : JVal → Option (List PlanStep)
  | .jnull => some []
  | .jarr vs =>
    vs.foldr (fun v acc =>
      match v, acc with
      | .jobj fields, some l =>
        (match decodeStrField fields "name", decodeStrField fields "goal",
               decodeStrField fields "prev_runtime_err" with
         | some n, some g, some p => some (⟨n, g, p⟩ :: l)
         | _, _, _ => none)
      | _, _ => none) (some [])
  | _ => none

def jsonUnmarshalPlanSteps (s : String) : Option (List PlanStep) :=
  (jsonParse s).bind decodePlanSteps

/-- The plan-parsing phase of `RunPlanner` (`part_005`, first variant):
trim, strip a whole-response fence, unmarshal `[]PlanStep` with the
`heuristicSplit` fallback, reject empty plans, and truncate to **5**
steps. -/
def runPlannerParse (resp : String) : Except String (List PlanStep) :=
  let resp := goTrimSpace resp
  let resp :=
    if strHasPre resp "```" && strHasSuf resp "```" then
      let r := goTrimSuf resp "```"
      match listFindSub r.data ['\n'] with
      | some i => (⟨r.data.drop (i + 1)⟩ : String)
      | none => r
    else resp
  let steps :=
    match jsonUnmarshalPlanSteps resp with
    | some l => if l = [] then heuristicSplit resp else l
    | none => heuristicSplit resp
  if steps = [] then .error "no valid steps parsed"
  else .ok (steps.take 5)

/-- The parsing phase of `buildStepPrompts` (`part_005`, lines 616–666):
`extractJSONStrict` then unmarshal `[]string`; **no length cap is
applied**. -/
def buildStepPromptsParse (raw : String) : Except String (List String) :=
  match extractJSONStrict raw with
  | .error e => .error ("invalid stepbuild prompt JSON: " ++ e)
  | .ok data =>
    match jsonUnmarshalStringArray data with
    | none => .error "invalid stepbuild prompt JSON"
    | some subs => .ok subs

/-- The environment one `RunPlanner` iteration observes: the headless
generation, entrypoint discovery, tool search and tool call outcomes. -/
inductive StepEnv where
  | genFail (msg : String) : StepEnv
  | noMain : StepEnv
  | searchFail (msg : String) : StepEnv
  | runFail (entry msg : String) : StepEnv
  | runOk (entry out : String) : StepEnv
  deriving Repr, DecidableEq

/-- The goal-injection at the top of each `RunPlanner` iteration: a
non-empty previous runtime error is appended to the goal. -/
def injectGoal (goal prevErr : String) : String :=
  if prevErr ≠ "" then
    goal ++ "\n\n⚠️ Previous runtime error:\n" ++ prevErr ++
      "\nPlease fix this issue in this step."
  else goal

/-- What the iteration writes into `steps[i+1].PrevRuntimeErr`.  The
`genFail`, `noMain` and `searchFail` paths `continue` **before** the
propagation statement, so nothing is written (`none`); only the tool-call
paths reach `steps[i+1].PrevRuntimeErr = step.PrevRuntimeErr`. -/
def stepPropagated : StepEnv → Option String
  | .genFail _ => none
  | .noMain => none
  | .searchFail _ => none
  | .runFail entry msg =>
    some ("❌ Runtime error (" ++ filepathBase entry ++ "): " ++ msg)
  | .runOk _ _ => some ""

/-- `steps[i+1].PrevRuntimeErr = e` on the remaining step list. -/
def setHeadPrevErr (e : String) : List PlanStep → List PlanStep
  | [] => []
  | t :: rs => { t with prevErr := e } :: rs

/-- The step loop of `RunPlanner` (lines 131–184): returns, in order, the
goal handed to `RunHeadless` (the materializer) at each step. -/
def runPlannerLoop (env : Nat → StepEnv) : List PlanStep → Nat → List String
  | [], _ => []
  | s :: rest, i =>
    injectGoal s.goal s.prevErr ::
      runPlannerLoop env
        (match stepPropagated (env i) with
         | none => rest
         | some e => setHeadPrevErr e rest) (i + 1)
  termination_by steps _ => steps.length
  decreasing_by
    simp_wf
    cases stepPropagated (env i) <;> cases rest <;> simp [setHeadPrevErr]

/-! ## C9 — the directory lock (`part_004`, `acquireDirLock`) -/

/-- Outcome of one `os.Mkdir` attempt. -/
inductive MkdirRes where
  | ok : MkdirRes
  | exist : MkdirRes
  | fail : MkdirRes
  deriving Repr, DecidableEq

/-- The environment of a lock acquisition: per-iteration mkdir outcome,
whether the context is cancelled when the iteration waits, and whether the
stat shows a stale (>10 min) lock. -/
structure LockEnv where
  mkdir : Nat → MkdirRes
  cancelled : Nat → Bool
  staleOld : Nat → Bool

/-- Result of `acquireDirLock`: acquired with a release function, the
context's cancellation error, a non-`EEXIST` mkdir error, or fuel
exhaustion (the source loops forever; fuel makes the model total). -/
inductive LockResult where
  | acquired : LockResult
  | cancelledErr : LockResult
  | mkdirErr : LockResult
  | spun : LockResult
  deriving Repr, DecidableEq

/-- `acquireDirLock` as a step machine: `Mkdir` first (success writes the
owner file and returns the release function; the Boolean records that this
call created the lock directory), a non-exist error returns, otherwise the
wait hook fires, the `select` observes cancellation or the 120 ms timer,
`waited` accumulates while under 2 s, and a stale directory may be
reclaimed before retrying. -/
def acquireDirLock (env : LockEnv) : Nat → Nat → Nat → LockResult × Bool
  | 0, _, _ => (.spun, false)
  | fuel + 1, i, waited =>
    match env.mkdir i with
    | .ok => (.acquired, true)
    | .fail => (.mkdirErr, false)
    | .exist =>
      if env.cancelled i then (.cancelledErr, false)
      else
        let waited := if waited < 2000 then waited + 120 else waited
        acquireDirLock env fuel (i + 1) waited

/-! ## C10 — `safeSend` (`part_005`) -/

/-- The planner queue channel: nil, closed, or open with a buffer and a
capacity. -/
inductive ChanState where
  | nil : ChanState
  | closed : ChanState
  | open' : List String → Nat → ChanState
  deriving Repr, DecidableEq

/-- A Go runtime panic (send on closed channel). -/
inductive GoPanic where
  | sendOnClosed : GoPanic
  deriving Repr, DecidableEq

/-- `select { case ch <- line: default: }`: a nil channel is never ready so
the default fires; a closed channel's send is ready and panics; a full
buffer falls to the default; otherwise the line is enqueued. -/
def selectSendDefault (q : ChanState) (line : String) :
    Except GoPanic (ChanState × Bool) :=
  match q with
  | .nil => .ok (q, false)
  | .closed => .error .sendOnClosed
  | .open' buf c =>
    if buf.length < c then .ok (.open' (buf ++ [line]) c, true)
    else .ok (q, false)

/-- `safeSend`: return early on a nil queue, otherwise run the `select`
under `defer recover()`, which turns the closed-channel panic into a normal
return.  Yields the queue state afterwards and whether the line was
delivered. -/
def safeSend (q : ChanState) (line : String) : ChanState × Bool :=
  match q with
  | .nil => (q, false)
  | _ =>
    match selectSendDefault q line with
    | .error _ => (q, false)
    | .ok r => r

/-! ## Concrete inputs used by counterexamples and witnesses -/

/-- A disk with no files on which every write succeeds. -/
def emptyDisk : Disk := { files := Fs.empty, wfail := fun _ => false }

/-- Scenario 1 of the specification: a single Go fence with a `// path:`
directive, plus trailing text. -/
def scenario1Response : String :=
  "```go\n// path: main.go\npackage main\n\nfunc main() \x7b\x7d\n```\nDone."

/-- A planner response that is a plain JSON array of nine sub-goal strings. -/
def nineSubsResponse : String :=
  "[\"a\",\"b\",\"c\",\"d\",\"e\",\"f\",\"g\",\"h\",\"i\"]"

/-- An input that contains the JSON object `{"a":1}` followed by junk and a
stray closing bracket. -/
def junkJsonInput : String := "\x7b\"a\":1\x7d junk ]"

/-- A Go fence body that declares `package main` and also carries a
universal `// package:` directive. -/
def pkgMainWithDirective : String :=
  "// package: util\npackage main\nfunc run() \x7b\x7d"

/-- Two plan steps with no prior runtime error. -/
def twoSteps : List PlanStep := [⟨"S1", "g1", ""⟩, ⟨"S2", "g2", ""⟩]

/-- An environment in which every step's generation fails. -/
def genFailEnv : Nat → StepEnv := fun _ => .genFail "boom"

/-- A lock environment whose directory always exists and whose context is
cancelled from the start. -/
def cancelledLockEnv : LockEnv :=
  { mkdir := fun _ => .exist, cancelled := fun _ => true, staleOld := fun _ => false }

/-! ## Theorems -/

/-! ### C7 — diff tracker -/

/-- C7: after `Record(p, b)` a `Snapshot(root, p)` returns `b` — provided
`b` is non-empty — and after `Record(p, nil)` it returns exactly what is on
disk at `root/p` (or nil when missing). -/
theorem tracker_record_then_snapshot (t : Tracker) (d : Fs) (root p : String)
    (b : String) (hb : b ≠ "") :
    (ChangeTracker.Snapshot (ChangeTracker.Record t p (some b)) d root p).1 = some b ∧
    (ChangeTracker.Snapshot (ChangeTracker.Record t p none) d root p).1 =
      d (filepathJoin root p) := by
  constructor
  · simp [ChangeTracker.Record, ChangeTracker.Snapshot, filepathToSlash,
      trackerSet, goAppendCopy, hb]
  · simp only [ChangeTracker.Record, ChangeTracker.Snapshot, filepathToSlash,
      trackerSet, if_pos rfl]
    cases h : d (filepathJoin root p) <;> simp [h]

/-- C7 witness: the theorem applied at a concrete tracker, disk and path. -/
theorem tracker_record_then_snapshot_witness :
    (ChangeTracker.Snapshot (ChangeTracker.Record Tracker.empty "a.go" (some "x"))
      Fs.empty "/r" "a.go").1 = some "x" ∧
    (ChangeTracker.Snapshot (ChangeTracker.Record Tracker.empty "a.go" none)
      Fs.empty "/r" "a.go").1 = Fs.empty (filepathJoin "/r" "a.go") :=
  tracker_record_then_snapshot Tracker.empty Fs.empty "/r" "a.go" "x" (by decide)

/-- C7 counterexample: recording an **empty** (non-nil) payload and taking a
snapshot returns nil, not the empty payload — Go's `append([]byte(nil),
data...)` copy conflates the empty slice with nil. -/
theorem tracker_empty_payload_reads_back_nil :
    (ChangeTracker.Snapshot (ChangeTracker.Record Tracker.empty "a.go" (some ""))
      Fs.empty "/r" "a.go").1 = none ∧
    (none : GoBytes) ≠ some "" := by
  decide

/-! ### C9 — directory lock cancellation -/

/-- C9: a run of `acquireDirLock` that returns the cancellation error has
created no lock directory (every `Mkdir` it attempted failed with
`EEXIST`) and returns no release function; and when the directory exists
and the context is cancelled, the very next wait returns the cancellation
error at once. -/
theorem acquireDirLock_cancelled_no_acquire (env : LockEnv) (fuel i w : Nat)
    (h : (acquireDirLock env fuel i w).1 = .cancelledErr) :
    (acquireDirLock env fuel i w).2 = false ∧
    (acquireDirLock env fuel i w).1 ≠ .acquired ∧
    (env.mkdir i = .exist → env.cancelled i = true →
      acquireDirLock env (fuel + 1) i w = (.cancelledErr, false)) := by
  refine ⟨?_, ?_, ?_⟩
  · induction fuel generalizing i w with
    | zero => simp [acquireDirLock] at h
    | succ n ih =>
      rw [acquireDirLock] at h ⊢
      cases hm : env.mkdir i <;> simp [hm] at h ⊢
      cases hc : env.cancelled i <;> simp [hc] at h ⊢
      exact ih _ _ h
  · rw [h]; decide
  · intro hm hc
    rw [acquireDirLock, hm]
    simp [hc]

/-- C9 witness: with the lock held by someone else and the context already
cancelled, one iteration returns the cancellation error without acquiring. -/
theorem acquireDirLock_cancelled_no_acquire_witness :
    (acquireDirLock cancelledLockEnv 1 0 0).2 = false ∧
    (acquireDirLock cancelledLockEnv 1 0 0).1 ≠ .acquired ∧
    (cancelledLockEnv.mkdir 0 = .exist → cancelledLockEnv.cancelled 0 = true →
      acquireDirLock cancelledLockEnv (1 + 1) 0 0 = (.cancelledErr, false)) :=
  acquireDirLock_cancelled_no_acquire cancelledLockEnv 1 0 0 (by decide)

/-! ### C10 — `safeSend` never panics and never blocks -/

/-- C10: `safeSend` drops the line without delivery (and without panicking
or blocking) when the planner queue is nil, closed, or full; a delivery
happens only into an open queue with free capacity.  The closed-channel
send panics inside the `select` (`selectSendDefault` errors) but the
deferred `recover` turns it into a normal return. -/
theorem safeSend_never_panics_never_blocks (q : ChanState) (line : String) :
    (safeSend .nil line = (.nil, false)) ∧
    (selectSendDefault .closed line = .error .sendOnClosed ∧
      safeSend .closed line = (.closed, false)) ∧
    (∀ buf c, c ≤ buf.length → safeSend (.open' buf c) line = (.open' buf c, false)) ∧
    ((safeSend q line).2 = true → ∃ buf c, q = .open' buf c ∧ buf.length < c) := by
  refine ⟨rfl, ⟨rfl, rfl⟩, ?_, ?_⟩
  · intro buf c hc
    simp [safeSend, selectSendDefault, Nat.not_lt.mpr hc]
  · intro h
    cases q with
    | nil => simp [safeSend] at h
    | closed => simp [safeSend, selectSendDefault] at h
    | open' buf c =>
      refine ⟨buf, c, rfl, ?_⟩
      by_cases hlt : buf.length < c
      · exact hlt
      · simp [safeSend, selectSendDefault, hlt] at h

/-- C10 witness: a full one-slot queue drops the line. -/
theorem safeSend_never_panics_never_blocks_witness :
    safeSend (.open' ["a"] 1) "x" = (.open' ["a"] 1, false) :=
  (safeSend_never_panics_never_blocks (.open' ["a"] 1) "x").2.2.1 ["a"] 1 (by decide)

/-! ### Shared string lemmas -/

theorem listStartsWith_append (ys zs : List Char) :
    listStartsWith (ys ++ zs) ys = true := by
  induction ys with
  | nil => cases zs <;> rfl
  | cons y ys ih => simp [listStartsWith, ih]

theorem listContainsSub_middle (xs ys zs : List Char) :
    listContainsSub (xs ++ (ys ++ zs)) ys = true := by
  induction xs with
  | nil =>
    simp only [List.nil_append]
    have hs : listStartsWith (ys ++ zs) ys = true := listStartsWith_append ys zs
    cases hyz : ys ++ zs with
    | nil =>
      have hy : ys = [] := (List.append_eq_nil.mp hyz).1
      subst hy
      simp [listContainsSub, listFindSub]
    | cons a t =>
      rw [hyz] at hs
      simp [listContainsSub, listFindSub, hs]
  | cons x xs ih =>
    simp only [List.cons_append, listContainsSub, listFindSub]
    by_cases hs : listStartsWith (x :: (xs ++ (ys ++ zs))) ys = true
    · simp [hs]
    · simp only [listContainsSub] at ih
      cases hf : listFindSub (xs ++ (ys ++ zs)) ys with
      | none => rw [hf] at ih; simp at ih
      | some k => simp [hs, hf]

theorem strContains_middle (x y z : String) :
    strContains (x ++ (y ++ z)) y = true := by
  simp only [strContains, String.data_append]
  exact listContainsSub_middle x.data y.data z.data

theorem str_append_ne_empty_left (x y : String) (h : x.data ≠ []) :
    x ++ y ≠ "" := by
  intro he
  have : (x ++ y).data = ("" : String).data := by rw [he]
  simp [String.data_append] at this
  exact h this.1

/-! ### C3 — Go entrypoint safeguard routes by `package src`, not `package main` -/

/-- C3: the code is at odds with the claim and with its own comment.  The
"Entrypoint safeguard for Go" in `saveCodeBlocks` tests the literal
`package src` (and `func main(`), not `package main`; so a Go fence whose
body declares `package main` but also carries a universal `// package:`
directive is routed to the package-inferred subdirectory `<root>/util`
instead of the workspace root.  This theorem evaluates the destination
logic at that failing input. -/
theorem saveCodeBlocks_package_main_not_forced_to_root :
    strContains pkgMainWithDirective "package main" = true ∧
    extractExplicitPath (goTrimSpace pkgMainWithDirective) = "" ∧
    strContains pkgMainWithDirective "package src" = false ∧
    strContains pkgMainWithDirective "func main(" = false ∧
    saveCodeBlocksGoDest "/w" pkgMainWithDirective = "/w/util" ∧
    ("/w/util" : String) ≠ "/w" := by
  decide

/-! ### C5 — runtime-error propagation in the planner loop -/

/-- C5 (amended): in the `RunPlanner` step loop, a **tool-call runtime
failure** at step `i` makes step `i+1`'s goal, as passed to the
materializer, the original goal plus the `⚠️ Previous runtime error:` block
holding the stringified error; but on the paths that `continue` before the
propagation statement — generation failure, no entrypoint, tool-search
failure — nothing is written, and step `i+1`'s goal is passed unchanged
(given it carried no prior error of its own). -/
theorem runPlanner_runtime_error_feedback (env : Nat → StepEnv)
    (s t : PlanStep) (rest : List PlanStep) (i : Nat) :
    (∀ entry msg, env i = .runFail entry msg →
      (runPlannerLoop env (s :: t :: rest) i).get? 1 =
        some (t.goal ++ "\n\n⚠️ Previous runtime error:\n" ++
          ("❌ Runtime error (" ++ filepathBase entry ++ "): " ++ msg) ++
          "\nPlease fix this issue in this step.") ∧
      strContains (((runPlannerLoop env (s :: t :: rest) i).get? 1).getD "")
        ("Previous runtime error:\n❌ Runtime error (" ++ filepathBase entry ++ "): " ++ msg)
        = true) ∧
    (stepPropagated (env i) = none → t.prevErr = "" →
      (runPlannerLoop env (s :: t :: rest) i).get? 1 = some t.goal) ∧
    (∀ entry out, env i = .runOk entry out →
      (runPlannerLoop env (s :: t :: rest) i).get? 1 = some t.goal) := by
  refine ⟨?_, ?_, ?_⟩
  · intro entry msg h
    have hprop : stepPropagated (env i) =
        some ("❌ Runtime error (" ++ filepathBase entry ++ "): " ++ msg) := by
      rw [h]; rfl
    have h0 : ("❌ Runtime error (" : String).data ≠ [] := by decide
    have h1 : (("❌ Runtime error (" ++ filepathBase entry) : String).data ≠ [] := by
      rw [String.data_append]
      intro hc
      exact h0 (List.append_eq_nil.mp hc).1
    have h2 : ((("❌ Runtime error (" ++ filepathBase entry) ++ "): ") : String).data ≠ [] := by
      rw [String.data_append]
      intro hc
      exact h1 (List.append_eq_nil.mp hc).1
    have hne : ("❌ Runtime error (" ++ filepathBase entry ++ "): " ++ msg) ≠ "" :=
      str_append_ne_empty_left _ msg h2
    simp only [runPlannerLoop, hprop, setHeadPrevErr, List.get?]
    constructor
    · simp [injectGoal, hne]
    · simp only [injectGoal, ne_eq, hne, not_false_iff, if_true, Option.getD_some]
      have hsplit :
          t.goal ++ "\n\n⚠️ Previous runtime error:\n" ++
            ("❌ Runtime error (" ++ filepathBase entry ++ "): " ++ msg) ++
            "\nPlease fix this issue in this step." =
          (t.goal ++ "\n\n⚠️ ") ++
            (("Previous runtime error:\n❌ Runtime error (" ++ filepathBase entry ++ "): " ++ msg) ++
              "\nPlease fix this issue in this step.") := by
        apply String.ext
        simp [String.data_append, List.append_assoc]
      rw [hsplit]
      exact strContains_middle _ _ _
  · intro hprop ht
    simp only [runPlannerLoop, hprop, List.get?]
    simp [injectGoal, ht]
  · intro entry out h
    have hprop : stepPropagated (env i) = some "" := by rw [h]; rfl
    simp only [runPlannerLoop, hprop, setHeadPrevErr, List.get?]
    simp [injectGoal]

/-- C5 witness: a concrete two-step plan whose first step's tool call fails
at runtime; the second goal carries the error block, and with a successful
run it is passed unchanged. -/
theorem runPlanner_runtime_error_feedback_witness :
    ((runPlannerLoop (fun _ => .runFail "main.go" "undefined: Subtract")
        twoSteps 0).get? 1 =
      some ("g2" ++ "\n\n⚠️ Previous runtime error:\n" ++
        ("❌ Runtime error (" ++ filepathBase "main.go" ++ "): " ++ "undefined: Subtract") ++
        "\nPlease fix this issue in this step.") ∧
     strContains (((runPlannerLoop (fun _ => .runFail "main.go" "undefined: Subtract")
        twoSteps 0).get? 1).getD "")
       ("Previous runtime error:\n❌ Runtime error (" ++ filepathBase "main.go" ++ "): " ++
         "undefined: Subtract") = true) ∧
    (runPlannerLoop (fun _ => .runOk "main.go" "ok") twoSteps 0).get? 1 = some "g2" := by
  constructor
  · exact (runPlanner_runtime_error_feedback (fun _ => .runFail "main.go" "undefined: Subtract")
      ⟨"S1", "g1", ""⟩ ⟨"S2", "g2", ""⟩ [] 0).1 "main.go" "undefined: Subtract" rfl
  · exact (runPlanner_runtime_error_feedback (fun _ => .runOk "main.go" "ok")
      ⟨"S1", "g1", ""⟩ ⟨"S2", "g2", ""⟩ [] 0).2.2 "main.go" "ok" rfl

/-- C5 counterexample: when step 0's **generation** fails, the `continue`
skips the propagation statement, so step 1's goal as passed to the
materializer is unchanged and contains no `Previous runtime error:` text —
contradicting the claim's "(or whose generation fails)" clause. -/
theorem runPlanner_genFail_not_propagated :
    genFailEnv 0 = .genFail "boom" ∧
    runPlannerLoop genFailEnv twoSteps 0 = ["g1", "g2"] ∧
    strContains "g2" "Previous runtime error:" = false := by
  refine ⟨rfl, ?_, by decide⟩
  simp only [runPlannerLoop, twoSteps, genFailEnv, stepPropagated]
  simp [injectGoal]

/-! ### C1 — snapshot caps -/

theorem capCharge_le (n : Nat) (pF : Int) (hpF : 0 ≤ pF) : capCharge n pF ≤ pF := by
  unfold capCharge
  split <;> omega

theorem selectIncluded_total_le (mF mT pF : Int) (hpF : 0 ≤ pF) :
    ∀ (entries : List FileEntryW) (count : Nat) (total : Int),
    total ≤ mT + pF →
    (selectIncluded mF mT pF entries count total).2 ≤ mT + pF := by
  intro entries
  induction entries with
  | nil => intro count total h; simpa [selectIncluded] using h
  | cons e rest ih =>
    intro count total h
    unfold selectIncluded
    split
    · simpa using h
    · split
      · simpa using h
      · rename_i h1 h2
        simp only
        apply ih
        have hc := capCharge_le e.content.length pF hpF
        omega

theorem selectIncluded_length_le (mF mT pF : Int) :
    ∀ (entries : List FileEntryW) (count : Nat) (total : Int),
    ((selectIncluded mF mT pF entries count total).1.length : Int) ≤
      max (mF - count) 0 := by
  intro entries
  induction entries with
  | nil => intro count total; simp [selectIncluded]
  | cons e rest ih =>
    intro count total
    unfold selectIncluded
    split
    · simp
    · split
      · simp
      · rename_i h1 h2
        simp only [List.length_cons]
        have := ih (count + 1) (total + capCharge e.content.length pF)
        push_cast at this ⊢
        omega

theorem renderedBody_length_le (content : List Nat) (pF : Int) (hpF : 0 ≤ pF) :
    ((renderedBody content pF).length : Int) ≤ max pF (content.length : Int) := by
  unfold renderedBody
  split
  · simp [List.length_take]
  · simp

/-- C1 (amended): for non-negative caps, `buildCodebaseContext` reports at
most `maxFiles` files, every admitted file is charged `min(size,
perFileLimit) ≤ perFileLimit`, and every rendered body holds at most
`perFileLimit` bytes whenever the file is over the limit (and its own size
otherwise) — but the reported charged total is only bounded by
`maxTotalBytes + perFileLimit`: the loop checks the total **before** adding
a file's charge, so the last admitted file may overshoot `maxTotalBytes` by
up to its own capped charge. -/
theorem buildCodebaseContext_caps (entries : List FileEntryW) (mF mT pF : Int)
    (hmF : 0 ≤ mF) (hmT : 0 ≤ mT) (hpF : 0 ≤ pF) :
    (((buildCodebaseContext entries mF mT pF).2.1 : Int) ≤ mF) ∧
    ((buildCodebaseContext entries mF mT pF).2.2 ≤ mT + pF) ∧
    (∀ sec ∈ (buildCodebaseContext entries mF mT pF).1, (sec.2.length : Int) ≤ pF) ∧
    (∀ n : Nat, capCharge n pF ≤ pF) := by
  refine ⟨?_, ?_, ?_, fun n => capCharge_le n pF hpF⟩
  · unfold buildCodebaseContext
    have := selectIncluded_length_le mF mT pF (sortEntries entries) 0 0
    simp only [Nat.cast_zero, Int.sub_zero] at this
    simp only
    omega
  · unfold buildCodebaseContext
    exact selectIncluded_total_le mF mT pF hpF (sortEntries entries) 0 0 (by omega)
  · unfold buildCodebaseContext
    intro sec hsec
    simp only [List.mem_map] at hsec
    obtain ⟨e, _, rfl⟩ := hsec
    unfold renderedBody
    split
    · simp [List.length_take]; omega
    · rename_i hle
      simp only
      omega

/-- C1 witness: the cap theorem applied to a one-file workspace with
positive caps. -/
theorem buildCodebaseContext_caps_witness :
    (((buildCodebaseContext [⟨"a.txt", [0, 0, 0]⟩] 2 10 2).2.1 : Int) ≤ 2) ∧
    ((buildCodebaseContext [⟨"a.txt", [0, 0, 0]⟩] 2 10 2).2.2 ≤ 10 + 2) ∧
    (∀ sec ∈ (buildCodebaseContext [⟨"a.txt", [0, 0, 0]⟩] 2 10 2).1,
      (sec.2.length : Int) ≤ 2) ∧
    (∀ n : Nat, capCharge n 2 ≤ 2) :=
  buildCodebaseContext_caps [⟨"a.txt", [0, 0, 0]⟩] 2 10 2 (by decide) (by decide) (by decide)

/-- C1 counterexample: with caps `(maxFiles, maxTotalBytes, perFileLimit) =
(1, 10, 50)` and a single 100-byte file, the reported charged total is 50,
exceeding `maxTotalBytes = 10` — the claim's "cumulative charged size never
exceeds maxTotalBytes" is false. -/
theorem buildCodebaseContext_total_exceeds_cap :
    (buildCodebaseContext [⟨"a.txt", List.replicate 100 0⟩] 1 10 50).2.2 = 50 ∧
    ¬((50 : Int) ≤ 10) := by
  constructor
  · decide
  · decide

/-! ### C2 — plan-length caps -/

/-- C2 (amended): `RunPlanner` truncates every parsed plan to at most **5**
steps (`steps = steps[:5]`), which in particular keeps it within 8; no
such cap exists in `buildStepPrompts`, whose step list is whatever the
JSON array held (see the counterexample). -/
theorem runPlanner_caps_steps_at_five (resp : String) (steps : List PlanStep)
    (h : runPlannerParse resp = .ok steps) :
    steps.length ≤ 5 ∧ steps.length ≤ 8 := by
  simp only [runPlannerParse] at h
  repeat' split at h
  all_goals cases h
  all_goals
    exact ⟨List.length_take_le _ _,
      le_trans (List.length_take_le _ _) (by norm_num)⟩

/-- C2 witness: a plain one-line response parses through the heuristic
fallback to a single step, within both bounds. -/
theorem runPlanner_caps_steps_at_five_witness :
    ([(⟨"", "do x", ""⟩ : PlanStep)] : List PlanStep).length ≤ 5 ∧
    ([(⟨"", "do x", ""⟩ : PlanStep)] : List PlanStep).length ≤ 8 :=
  runPlanner_caps_steps_at_five "do x" [⟨"", "do x", ""⟩] (by rfl)

/-- C2 counterexample: `buildStepPrompts` applies no cap at all — a model
response that is a plain JSON array of nine sub-goal strings yields a step
list of length 9 > 8 handed to execution, so the claim's "≤ 8" bound is
false for the sub-goal split. -/
theorem buildStepPrompts_exceeds_eight :
    buildStepPromptsParse nineSubsResponse =
      .ok ["a", "b", "c", "d", "e", "f", "g", "h", "i"] ∧
    (["a", "b", "c", "d", "e", "f", "g", "h", "i"] : List String).length = 9 ∧
    ¬((9 : Nat) ≤ 8) := by
  refine ⟨?_, by decide, by decide⟩
  simp [nineSubsResponse, buildStepPromptsParse, extractJSONStrict,
    extractJSONStrictCandidate, goTrimSpace,
    goIsSpace, reFenceFind, reFenceFindAux, listFindSub, listStartsWith,
    matchJsonTag, goTrimPre, goTrimSuf, strHasPre, strHasSuf, goReplaceAllChar,
    trailingCommaFix, reIsSpace, jsonValid, vdVal, vdStr, vdArrStart, vdEnd,
    vdEndChar, isDigitB, jsonUnmarshalStringArray, jsonParse, pvValue, pvElems,
    pvFields, pvString, pvNumber, pvNumTail, hexVal, String.data]

/-! ### C4 — trailing newline on materialized fences -/

theorem str_append_newline_getLast (s : String) :
    (s ++ "\n").data.getLast? = some '\n' := by
  rw [String.data_append]
  exact List.getLast?_concat _

theorem writtenBody_empty_or_newline (body : String) :
    (if body ≠ "" && body.data.getLast? ≠ some '\n' then body ++ "\n" else body) = "" ∨
    (if body ≠ "" && body.data.getLast? ≠ some '\n' then body ++ "\n"
      else body).data.getLast? = some '\n' := by
  split
  · right; exact str_append_newline_getLast _
  · rename_i h
    simp only [Bool.and_eq_true, decide_eq_true_eq, ne_eq, not_and_or,
      Decidable.not_not] at h
    exact h

/-- C4 (amended): the two materializers disagree and neither matches the
claim verbatim.  `writeCodeFence` writes the whitespace-trimmed,
path-stripped body and appends one `\n` exactly when the body is non-empty
and lacks one, so every non-empty file it writes ends in a newline and its
scenario-1 output is exactly `package main\n\nfunc main() {}\n`.
`WriteCodeBlocks` writes the parsed body verbatim — the disk content is
exactly the path-stripped fence body, with nothing appended (its scenario-1
file lacks the trailing newline; see the counterexample). -/
theorem materializer_trailing_newline (baseDir : String) (index : Nat)
    (fence : String × String) (mkfail : String → Bool) (d : Disk)
    (root : String) (i : Nat) (b : CodeBlockM) (tr : Tracker) :
    ((writeCodeFence baseDir index fence mkfail d).2.files = d.files ∨
      ∃ fp body, (writeCodeFence baseDir index fence mkfail d).2.files =
          fsSet d.files fp (some body) ∧
        (body = "" ∨ body.data.getLast? = some '\n')) ∧
    ((writeOneBlock root i b tr d).2.2.files = d.files ∨
      (writeOneBlock root i b tr d).2.2.files =
        fsSet d.files (filepathJoin root (blockPath i b))
          (some (extractPathAndStrip b.body).2)) ∧
    ((writeCodeFence "/w" 0 ((parseFences scenario1Response).getD 0 ("", ""))
        (fun _ => false) emptyDisk).2.files "/w/main.go" =
      some "package main\n\nfunc main() \x7b\x7d\n") := by
  refine ⟨?_, ?_, by decide⟩
  · simp only [writeCodeFence]
    repeat' split
    all_goals
      first
        | (left ; rfl)
        | (right ; exact ⟨_, _, rfl, writtenBody_empty_or_newline _⟩)
        | (right ; exact ⟨_, _, rfl, Or.inr (str_append_newline_getLast _)⟩)
        | (right
           rename_i hcond
           refine ⟨_, _, rfl, ?_⟩
           simp only [Bool.and_eq_true, decide_eq_true_eq, ne_eq, not_and_or,
             Decidable.not_not] at hcond
           exact hcond)
  · simp only [writeOneBlock]
    split
    · split
      · left; rfl
      · right; rfl
    · left; rfl

/-- C4 counterexample: materializing the scenario-1 response through
`WriteCodeBlocks` leaves `/w/main.go` holding the body **without** the
trailing newline — not the claimed exact bytes
`package main\n\nfunc main() {}\n`. -/
theorem writeCodeBlocks_scenario1_lacks_newline :
    (WriteCodeBlocks "/w" scenario1Response Tracker.empty emptyDisk).2.2.files "/w/main.go" =
      some "package main\n\nfunc main() \x7b\x7d" ∧
    (WriteCodeBlocks "/w" scenario1Response Tracker.empty emptyDisk).2.2.files "/w/main.go" ≠
      some "package main\n\nfunc main() \x7b\x7d\n" := by
  constructor
  · decide
  · decide

/-! ### C6 — one action per fence, in order -/

theorem writeOneBlock_action (root : String) (i : Nat) (b : CodeBlockM)
    (tr : Tracker) (d : Disk) :
    (writeOneBlock root i b tr d).1.path = blockPath i b ∧
    ((writeOneBlock root i b tr d).1.action = "saved" ∨
      (writeOneBlock root i b tr d).1.action = "error") := by
  simp only [writeOneBlock]
  repeat' split
  all_goals simp

theorem writeBlocksLoop_length (root : String) :
    ∀ (bs : List CodeBlockM) (i : Nat) (tr : Tracker) (d : Disk),
    (writeBlocksLoop root bs i tr d).1.length = bs.length := by
  intro bs
  induction bs with
  | nil => intro i tr d; simp [writeBlocksLoop]
  | cons hd tl ih => intro i tr d; simp [writeBlocksLoop, ih]

theorem writeBlocksLoop_get (root : String) :
    ∀ (bs : List CodeBlockM) (i : Nat) (tr : Tracker) (d : Disk) (k : Nat)
      (b : CodeBlockM), bs.get? k = some b →
    ∃ tr' d', (writeBlocksLoop root bs i tr d).1.get? k =
      some (writeOneBlock root (i + k) b tr' d').1 := by
  intro bs
  induction bs with
  | nil => intro i tr d k b hk; simp at hk
  | cons hd tl ih =>
    intro i tr d k b hk
    cases k with
    | zero =>
      simp only [List.get?] at hk
      cases hk
      exact ⟨tr, d, by simp [writeBlocksLoop]⟩
    | succ k' =>
      simp only [List.get?] at hk
      obtain ⟨tr', d', hg⟩ := ih (i + 1)
        (writeOneBlock root i hd tr d).2.1 (writeOneBlock root i hd tr d).2.2 k' b hk
      refine ⟨tr', d', ?_⟩
      simp only [writeBlocksLoop, List.get?]
      have heq : i + 1 + k' = i + (k' + 1) := by omega
      rw [heq] at hg
      exact hg

/-- C6: a response with `N ≥ 1` parseable fences materializes to exactly
`N` `FileAction`s, the `k`-th of which comes from the `k`-th fence (its
path is the `k`-th fence's resolved path) and has kind `saved` or `error`,
never `deleted`; no fence is split and no two fences merge. -/
theorem writeCodeBlocks_one_action_per_fence (root resp : String)
    (tr : Tracker) (d : Disk) (h : extractCodeBlocks resp ≠ []) :
    ((WriteCodeBlocks root resp tr d).1.length = (extractCodeBlocks resp).length) ∧
    (∀ k b, (extractCodeBlocks resp).get? k = some b →
      ∃ a, (WriteCodeBlocks root resp tr d).1.get? k = some a ∧
        a.path = blockPath k b ∧
        (a.action = "saved" ∨ a.action = "error") ∧
        a.action ≠ "deleted") := by
  cases hbs : extractCodeBlocks resp with
  | nil => exact absurd hbs h
  | cons b0 bs0 =>
    have hW : WriteCodeBlocks root resp tr d = writeBlocksLoop root (b0 :: bs0) 0 tr d := by
      unfold WriteCodeBlocks
      rw [hbs]
    rw [hW]
    constructor
    · exact writeBlocksLoop_length root (b0 :: bs0) 0 tr d
    · intro k b hk
      obtain ⟨tr', d', hg⟩ := writeBlocksLoop_get root (b0 :: bs0) 0 tr d k b hk
      obtain ⟨hp, hact⟩ := writeOneBlock_action root (0 + k) b tr' d'
      simp only [Nat.zero_add] at hg hp hact
      exact ⟨_, hg, hp, hact, by rcases hact with ha | ha <;> simp [ha]⟩

/-- C6 witness: the theorem applied to the scenario-1 response. -/
theorem writeCodeBlocks_one_action_per_fence_witness :
    ((WriteCodeBlocks "/w" scenario1Response Tracker.empty emptyDisk).1.length =
      (extractCodeBlocks scenario1Response).length) ∧
    (∀ k b, (extractCodeBlocks scenario1Response).get? k = some b →
      ∃ a, (WriteCodeBlocks "/w" scenario1Response Tracker.empty emptyDisk).1.get? k = some a ∧
        a.path = blockPath k b ∧
        (a.action = "saved" ∨ a.action = "error") ∧
        a.action ≠ "deleted") :=
  writeCodeBlocks_one_action_per_fence "/w" scenario1Response Tracker.empty emptyDisk
    (by decide)

/-! ### C8 — tolerant JSON extraction -/

theorem hexDigitChar_isHex (n : Nat) (h : n < 16) :
    isHexDigitB (hexDigitChar n) = true := by
  interval_cases n <;> decide

/-- Scanning an escaped string body: the validator walks the escaped
characters of `l` and resumes at the closing quote. -/
theorem vdStr_escape (l : List Char) (cs : List Char) (fs : List VFrame) :
    vdStr false ((l.map goEscapeChar).flatten ++ '"' :: cs) fs = vdEnd cs fs := by
  induction l with
  | nil => simp [vdStr]
  | cons c l ih =>
    simp only [List.map_cons, List.flatten_cons, List.append_assoc]
    by_cases h1 : c = '"'
    · have hgc : goEscapeChar c = ['\\', '"'] := by simp [goEscapeChar, h1]
      rw [hgc]
      simp only [List.cons_append, List.nil_append]
      simpa [vdStr, vdStrEsc] using ih
    · by_cases h2 : c = '\\'
      · have hgc : goEscapeChar c = ['\\', '\\'] := by simp [goEscapeChar, h1, h2]
        rw [hgc]
        simp only [List.cons_append, List.nil_append]
        simpa [vdStr, vdStrEsc] using ih
      · by_cases h3 : c = '\n'
        · have hgc : goEscapeChar c = ['\\', 'n'] := by simp [goEscapeChar, h1, h2, h3]
          rw [hgc]
          simp only [List.cons_append, List.nil_append]
          simpa [vdStr, vdStrEsc] using ih
        · by_cases h4 : c = '\x0d'
          · have hgc : goEscapeChar c = ['\\', 'r'] := by
              simp [goEscapeChar, h1, h2, h3, h4]
            rw [hgc]
            simp only [List.cons_append, List.nil_append]
            simpa [vdStr, vdStrEsc] using ih
          · by_cases h5 : c = '\t'
            · have hgc : goEscapeChar c = ['\\', 't'] := by
                simp [goEscapeChar, h1, h2, h3, h4, h5]
              rw [hgc]
              simp only [List.cons_append, List.nil_append]
              simpa [vdStr, vdStrEsc] using ih
            · by_cases h6 : c.toNat < 32
              · have hgc : goEscapeChar c =
                    ['\\', 'u', '0', '0', hexDigitChar (c.toNat / 16),
                      hexDigitChar (c.toNat % 16)] := by
                  simp [goEscapeChar, h1, h2, h3, h4, h5, h6]
                have hx1 : isHexDigitB (hexDigitChar (c.toNat / 16)) = true :=
                  hexDigitChar_isHex _ (by omega)
                have hx2 : isHexDigitB (hexDigitChar (c.toNat % 16)) = true :=
                  hexDigitChar_isHex _ (Nat.mod_lt _ (by omega))
                rw [hgc]
                simp only [List.cons_append, List.nil_append]
                simpa [vdStr, vdStrEsc, vdStrU, hx1, hx2] using ih
              · by_cases h7 : c = '<' ∨ c = '>' ∨ c = '&'
                · have hgc : goEscapeChar c =
                      ['\\', 'u', '0', '0', hexDigitChar (c.toNat / 16),
                        hexDigitChar (c.toNat % 16)] := by
                    rcases h7 with h | h | h <;>
                      simp [goEscapeChar, h1, h2, h3, h4, h5, h6, h]
                  have hx1 : isHexDigitB (hexDigitChar (c.toNat / 16)) = true := by
                    rcases h7 with h | h | h <;> subst h <;> decide
                  have hx2 : isHexDigitB (hexDigitChar (c.toNat % 16)) = true := by
                    rcases h7 with h | h | h <;> subst h <;> decide
                  rw [hgc]
                  simp only [List.cons_append, List.nil_append]
                  simpa [vdStr, vdStrEsc, vdStrU, hx1, hx2] using ih
                · by_cases h8 : c.toNat = 8232 ∨ c.toNat = 8233
                  · have hgc : goEscapeChar c =
                        ['\\', 'u', '2', '0', '2', hexDigitChar (c.toNat % 16)] := by
                      have hne : ¬(c = '<' || c = '>' || c = '&') = true := by
                        simp only [Bool.or_eq_true, decide_eq_true_eq, not_or]
                        tauto
                      rcases h8 with h | h <;>
                        simp [goEscapeChar, h1, h2, h3, h4, h5, h6, hne, h]
                    have hx2 : isHexDigitB (hexDigitChar (c.toNat % 16)) = true :=
                      hexDigitChar_isHex _ (Nat.mod_lt _ (by omega))
                    rw [hgc]
                    simp only [List.cons_append, List.nil_append]
                    simpa [vdStr, vdStrEsc, vdStrU, hx2] using ih
                  · have hgc : goEscapeChar c = [c] := by
                      have hne : ¬(c = '<' || c = '>' || c = '&') = true := by
                        simp only [Bool.or_eq_true, decide_eq_true_eq, not_or]
                        tauto
                      have hne2 : ¬(c.toNat = 8232 || c.toNat = 8233) = true := by
                        simpa using h8
                      simp [goEscapeChar, h1, h2, h3, h4, h5, h6, hne, hne2]
                    rw [hgc]
                    simp only [List.cons_append, List.nil_append]
                    simpa [vdStr, h1, h2, h6] using ih

/-- A marshalled string consumed as one value. -/
theorem vdVal_mstr (x : String) (cs : List Char) (fs : List VFrame) :
    vdVal (marshalStringChars x ++ cs) fs = vdEnd cs fs := by
  simp only [marshalStringChars, List.cons_append, List.append_assoc]
  rw [vdVal]
  simpa [reIsSpace] using vdStr_escape x.data cs fs

/-- The element list of a marshalled array consumed inside an `arr` frame. -/
theorem vdVal_items (t : List String) :
    ∀ (x : String) (cs : List Char) (fs : List VFrame),
    vdVal (marshalItems (x :: t) ++ ']' :: cs) (.arr :: fs) = vdEnd cs fs := by
  induction t with
  | nil =>
    intro x cs fs
    rw [show marshalItems [x] = marshalStringChars x from rfl]
    rw [vdVal_mstr]
    rw [vdEnd]
    simp [vdEndChar, reIsSpace]
  | cons y t ih =>
    intro x cs fs
    rw [show marshalItems (x :: y :: t) = marshalStringChars x ++ ',' :: marshalItems (y :: t)
      from rfl]
    rw [List.append_assoc, List.cons_append, vdVal_mstr, vdEnd]
    rw [show vdEndChar ',' (marshalItems (y :: t) ++ ']' :: cs) (.arr :: fs) =
      vdVal (marshalItems (y :: t) ++ ']' :: cs) (.arr :: fs) by
        simp [vdEndChar, reIsSpace]]
    exact ih y cs fs

/-- `json.Marshal` of a non-empty string slice is valid JSON. -/
theorem marshal_valid (items : List String) (h : items ≠ []) :
    jsonValid (marshalStringArray items) = true := by
  cases items with
  | nil => exact absurd rfl h
  | cons x t =>
    show vdVal ('[' :: (marshalItems (x :: t) ++ [']'])) [] = true
    rw [vdVal]
    simp only [reIsSpace, decide_eq_true_eq]
    norm_num
    cases t with
    | nil =>
      rw [show marshalItems [x] = marshalStringChars x from rfl]
      simp only [marshalStringChars, List.cons_append, List.append_assoc]
      rw [vdArrStart]
      simp only [reIsSpace]
      norm_num
      have := vdVal_items [] x [] []
      simp only [marshalItems, marshalStringChars, List.cons_append,
        List.append_assoc] at this
      simpa [vdEnd] using this
    | cons y t2 =>
      rw [show marshalItems (x :: y :: t2) =
        marshalStringChars x ++ ',' :: marshalItems (y :: t2) from rfl]
      simp only [marshalStringChars, List.cons_append, List.append_assoc]
      rw [vdArrStart]
      simp only [reIsSpace]
      norm_num
      have := vdVal_items (y :: t2) x [] []
      simp only [marshalItems, marshalStringChars, List.cons_append,
        List.append_assoc] at this
      simpa [vdEnd] using this

/-- On a bracket-free input every positional attempt of `jsonRe` fails: the
capture must open with `{` or `[`. -/
theorem jsonReFindAux_none (fuel : Nat) :
    ∀ s : List Char, (∀ c ∈ s, ¬(c = '[' ∨ c = '\x7b')) →
    jsonReFindAux fuel s = none := by
  induction fuel with
  | zero => intro s _; rfl
  | succ n ih =>
    intro s hs
    rw [jsonReFindAux]
    cases hf : listFindSub s ['\x60', '\x60', '\x60'] with
    | none => rfl
    | some i =>
      simp only
      have hsub : ∀ c ∈ s.drop (i + 1), ¬(c = '[' ∨ c = '\x7b') :=
        fun c hc => hs c (List.mem_of_mem_drop hc)
      have hbody : ∀ t : List Char,
          (∀ c ∈ t, ¬(c = '[' ∨ c = '\x7b')) →
          (match t with
           | c :: cs =>
             if c = '\x7b' || c = '[' then
               (jsonReBody (cs.length + 1) cs).map (fun t2 => c :: t2)
             else none
           | [] => none) = (none : Option (List Char)) := by
        intro t ht
        cases t with
        | nil => rfl
        | cons c cs =>
          have := ht c (by simp)
          simp only
          rw [if_neg]
          simp only [Bool.or_eq_true, decide_eq_true_eq]
          tauto
      have hdropall : ∀ k, ∀ c ∈ s.drop k, ¬(c = '[' ∨ c = '\x7b') :=
        fun k c hc => hs c (List.mem_of_mem_drop hc)
      have h1 : ∀ c ∈ ((if matchJsonTag (s.drop (i + 3)) then
          (match s.drop (i + 3) |>.drop 4 with
           | c :: a => if c.toLower = 'c' || c = '5' then (s.drop (i + 3)).drop 4 |>.drop 1
             else (s.drop (i + 3)).drop 4
           | [] => (s.drop (i + 3)).drop 4)
          else s.drop (i + 3)).dropWhile reIsSpace), ¬(c = '[' ∨ c = '\x7b') := by
        intro c hc
        have hc2 := (List.dropWhile_sublist reIsSpace).subset hc
        split at hc2
        · split at hc2
          · split at hc2
            · exact hs c (List.mem_of_mem_drop (List.mem_of_mem_drop
                (List.mem_of_mem_drop hc2)))
            · exact hs c (List.mem_of_mem_drop (List.mem_of_mem_drop hc2))
          · exact hs c (List.mem_of_mem_drop (List.mem_of_mem_drop hc2))
        · exact hs c (List.mem_of_mem_drop hc2)
      rw [hbody _ h1]
      exact ih _ hsub

/-- The final gate of `extractJSON` only lets through strings opening with
`{` or `[`. -/
theorem bracketHeadCheck_head {s out : String} (h : bracketHeadCheck s = .ok out) :
    out.data.head? = some '\x7b' ∨ out.data.head? = some '[' := by
  unfold bracketHeadCheck at h
  split at h
  · rename_i c heq
    split at h
    · cases h
    · rename_i hcond
      cases h
      simp only [Bool.and_eq_true, decide_eq_true_eq, ne_eq, not_and_or,
        Decidable.not_not] at hcond
      rw [heq]
      rcases hcond with hc | hc <;> simp [hc]
  · cases h

/-- C8 (amended): `extractJSONStrict` returns bytes that parse as JSON
whenever it succeeds (its two acceptance paths are `json.Valid`-checked and
its list fallback is a marshalled string array); `extractJSON`, by
contrast, only guarantees that its output opens with `{` or `[` — and an
input containing neither bracket makes it fail rather than fabricate a
value. -/
theorem extractor_json_validity :
    (∀ raw out, extractJSONStrict raw = .ok out → jsonValid out = true) ∧
    (∀ raw out, extractJSON raw = .ok out →
      out.data.head? = some '\x7b' ∨ out.data.head? = some '[') ∧
    (∀ raw : String, (∀ c ∈ raw.data, ¬(c = '[' ∨ c = '\x7b')) →
      ∃ e, extractJSON raw = .error e) := by
  refine ⟨?_, ?_, ?_⟩
  · intro raw out h
    simp only [extractJSONStrict] at h
    repeat' split at h
    all_goals cases h
    all_goals first
      | assumption
      | (apply marshal_valid
         rename_i hlen
         intro hnil
         rw [hnil] at hlen
         simp at hlen)
  · intro raw out h
    simp only [extractJSON] at h
    repeat' split at h
    all_goals first
      | cases h
      | exact bracketHeadCheck_head h
  · intro raw hraw
    have hfence : jsonReFind raw = none := by
      unfold jsonReFind
      rw [jsonReFindAux_none _ _ hraw]
      rfl
    have hidx : strIndexAny raw ['[', '\x7b'] = none := by
      unfold strIndexAny
      rw [List.findIdx?_eq_none_iff]
      intro c hc
      have hn := hraw c hc
      simp only [not_or] at hn
      simp only [List.contains_cons, List.contains_nil, Bool.or_false]
      simp [hn.1, hn.2]
    refine ⟨"no JSON object or array found", ?_⟩
    simp only [extractJSON, hfence, hidx]

/-- C8 counterexample: the input `{"a":1} junk ]` contains the JSON object
`{"a":1}`, yet `extractJSON` returns the whole bracketed span
`{"a":1} junk ]` unvalidated — bytes that do **not** parse as JSON.  The
claim's "returns bytes that parse successfully as JSON" is false for
`extractJSON`, which never runs `json.Valid`. -/
theorem extractJSON_returns_unparseable :
    strContains junkJsonInput "\x7b\"a\":1\x7d" = true ∧
    jsonValid "\x7b\"a\":1\x7d" = true ∧
    extractJSON junkJsonInput = .ok junkJsonInput ∧
    jsonValid junkJsonInput = false := by
  refine ⟨by decide, ?_, ?_, ?_⟩
  · simp [junkJsonInput, jsonValid, vdVal, vdStr, vdObjStart, vdColon, vdEnd,
      vdEndChar, vdNum1, reIsSpace, isDigitB, String.data]
  · simp [junkJsonInput, extractJSON, bracketHeadCheck, jsonReFind, jsonReFindAux,
      listFindSub, listStartsWith, matchJsonTag, strIndexAny, strLastIndexAny,
      goTrimSpace, goIsSpace, trailingCommaFix, reIsSpace, strContains,
      listContainsSub, String.data]
  · simp [junkJsonInput, jsonValid, vdVal, vdStr, vdObjStart, vdColon, vdEnd,
      vdEndChar, vdNum1, reIsSpace, isDigitB, String.data]

/-- C8 witness: the validity theorem applied at concrete inputs — a valid
strict extraction, the bracket-head guarantee, and a bracket-free input
that errors. -/
theorem extractor_json_validity_witness :
    jsonValid nineSubsResponse = true ∧
    (junkJsonInput.data.head? = some '\x7b' ∨ junkJsonInput.data.head? = some '[') ∧
    (∃ e, extractJSON "hello" = .error e) := by
  refine ⟨?_, ?_, ?_⟩
  · exact extractor_json_validity.1 nineSubsResponse nineSubsResponse
      (by simp [nineSubsResponse, extractJSONStrict, extractJSONStrictCandidate,
        goTrimSpace, goIsSpace, reFenceFind, reFenceFindAux, listFindSub,
        listStartsWith, matchJsonTag, goTrimPre, goTrimSuf, strHasPre, strHasSuf,
        goReplaceAllChar, trailingCommaFix, reIsSpace, jsonValid, vdVal, vdStr,
        vdArrStart, vdEnd, vdEndChar, isDigitB, String.data])
  · exact extractor_json_validity.2.1 junkJsonInput junkJsonInput
      (by simp [junkJsonInput, extractJSON, bracketHeadCheck, jsonReFind,
        jsonReFindAux, listFindSub, listStartsWith, matchJsonTag, strIndexAny,
        strLastIndexAny, goTrimSpace, goIsSpace, trailingCommaFix, reIsSpace,
        strContains, listContainsSub, String.data])
  · exact extractor_json_validity.2.2 "hello" (by decide)

end AgenticTui
